import Mathlib

/-!
Verification of the GoodNewsEveryone news-aggregation core: a shallow embedding
of the deduplication pass (`src/main.py`, `src/bootstrap_cache.py`) and of the
feed fetch/filter pipeline with its classifiers, scorer and image resolver
(`src/aggregator.py`), together with theorems settling the spec's claims.

Modelling conventions:
* Python floats are modelled as exact rationals (`Rat`); `round(x, 1)` is
  round-half-to-even on the tenths grid, the idealisation of CPython's rounding.
* Python dicts keyed by topic / hash are modelled as association lists in
  insertion order (Python dicts preserve insertion order); mutation of a value
  under a key rewrites the first (unique) entry with that key.
* External collaborators (the VADER sentiment model, the topic→icon emoji map,
  the filesystem existence check for placeholder images) are parameters of the
  embedded functions; the source consults them through pure calls.
* `hashlib.md5(sig).hexdigest()` is modelled by the signature string itself:
  md5 is deterministic, so equal signatures give equal digests, and the
  development (like the source's design) treats the digest as injective.
-/

namespace GoodNews

/- Batteries marks the rational-number operations irreducible, which blocks
`decide`-style evaluation of the embedded functions on concrete inputs; the
development evaluates them, so re-allow unfolding locally. -/
attribute [local semireducible] Rat.add Rat.mul Rat.sub Rat.inv Rat.ofScientific

/-! ## String utilities shared by the embedded functions -/

/-- Word characters in the sense of the regexes `\w` used by the source
(ASCII alphanumerics and underscore). -/
def isWordChar (c : Char) : Bool := c.isAlphanum || c = '_'

/-- Embedding of Python's `str.lower()` (character-wise lowercasing; the
sources only feed it ASCII keyword data). -/
def lowerStr (s : String) : String := String.mk (s.data.map Char.toLower)

/-- Embedding of `re.sub(r'[^\w\s]', '', text)`: drop every character that is
neither a word character nor whitespace. -/
def stripNonWord (cs : List Char) : List Char :=
  cs.filter (fun c => isWordChar c || c.isWhitespace)

/-- Maximal whitespace-free runs of a character list, in order (helper for
collapsing whitespace; `acc` carries the current run, reversed). -/
def wsRuns : List Char → List Char → List (List Char)
  | [], acc => if acc = [] then [] else [acc.reverse]
  | c :: cs, acc =>
    if c.isWhitespace then
      if acc = [] then wsRuns cs [] else acc.reverse :: wsRuns cs []
    else wsRuns cs (c :: acc)

/-- Embedding of `re.sub(r'\s+', ' ', text).strip()`: collapse whitespace runs
to single spaces and trim the ends — equivalently, join the whitespace-free
runs with single spaces. -/
def collapseWhitespace (cs : List Char) : List Char :=
  List.intercalate [' '] (wsRuns cs [])

/-- Embedding of `normalize_text` from `src/main.py` (identical copy in
`src/bootstrap_cache.py`): lowercase, strip non-word/non-space characters,
collapse whitespace. -/
def normalize_text (s : String) : String :=
  if s = "" then "" else String.mk (collapseWhitespace (stripNonWord (s.data.map Char.toLower)))

/-- Substring containment, the embedding of Python's `needle in hay`. -/
def containsSub (hay needle : List Char) : Bool :=
  (List.range (hay.length + 1)).any (fun i => (hay.drop i).take needle.length = needle)

/-- Occurrence of `kw` at position `i` of `text` with `\b` word boundaries on
both sides.  Every keyword in the source's keyword lists begins and ends with a
word character, for which `\bkw\b` matches at `i` exactly when the characters
adjacent to the occurrence (when they exist) are not word characters. -/
def wholeWordAt (kw text : List Char) (i : Nat) : Bool :=
  decide ((text.drop i).take kw.length = kw) &&
  (i == 0 || !isWordChar (text.getD (i - 1) ' ')) &&
  !isWordChar (text.getD (i + kw.length) ' ')

/-- Embedding of `re.search(r"\b" + re.escape(kw) + r"\b", text)` viewed as a
Boolean: some whole-word occurrence of `kw` exists in `text`. -/
def containsWholeWord (kw text : String) : Bool :=
  (List.range (text.data.length + 1)).any (fun i => wholeWordAt kw.data text.data i)

/-! ## Content signatures and hashes (`src/main.py`, lines 46-65) -/

/-- Articles as stored in the topic-keyed JSON cache.  The fields are the ones
the embedded functions read or that vary between articles; the remaining
source fields (`source_feed`, `source_icon_path`, `noun_icon_url`,
`noun_icon_attr`, `inspiration_dimensions`) are constants or derived values
and are omitted. -/
structure Tag where
  name : String
  color : String
  icon : String
deriving DecidableEq, Repr

structure Article where
  title : String
  link : String
  summary : String
  published : String
  sentiment_score : Rat
  inspiration_score : Rat
  is_inspirational : Bool
  source_name : String
  topic_name : String
  topic_icon_path : Option String
  image_url : String
  tags : List Tag
deriving DecidableEq, Repr

/-- Embedding of `generate_content_hash`: the content signature is
`normalize_text(title) + normalize_text(summary)[:100]` when the normalized
summary is non-empty, and the normalized title alone otherwise.  The source
returns `hashlib.md5(signature).hexdigest()`; md5 being deterministic, the
embedding uses the signature itself as the dedup key (see the header note). -/
def generate_content_hash (a : Article) : String :=
  let title := normalize_text a.title
  let summary := normalize_text a.summary
  if summary ≠ "" then title ++ String.mk (summary.data.take 100) else title

/-! ## The deduplication pass (`src/main.py` lines 67-117,
`src/bootstrap_cache.py` lines 34-84; the two copies are identical) -/

/-- Topic-keyed article store: `articles_by_topic` as an association list in
dict insertion order. -/
abbrev Store := List (String × List Article)

/-- Value of `store[topic]` for reading: the bucket under the (unique) entry
with that key, `[]` when the key is absent. -/
def bucket (st : Store) (topic : String) : List Article :=
  (st.lookup topic).getD []

/-- Mutation `store[topic] = f(store[topic])` on the first (in a Python dict:
the unique) entry keyed `topic`; identity when the key is absent. -/
def storeModify : Store → String → (List Article → List Article) → Store
  | [], _, _ => []
  | p :: ps, t, f => if p.1 = t then (p.1, f p.2) :: ps else p :: storeModify ps t f

/-- State of the deduplication loop: `seen_hashes` maps a content hash to the
`(topic, article)` currently kept for it, `deduplicated` is the output dict
under construction.  (`total_removed` and `kept_sources` only feed the final
print statement and are not part of the returned value.) -/
structure DedupState where
  seen_hashes : List (String × String × Article)
  deduplicated : Store

/-- Dict assignment `seen_hashes[h] = (t, a)`: overwrite the entry keyed `h`
when present, append a new entry otherwise. -/
def updateSeen (seen : List (String × String × Article)) (h t : String) (a : Article) :
    List (String × String × Article) :=
  if (seen.lookup h).isSome then
    seen.map (fun q => if q.1 = h then (h, t, a) else q)
  else
    seen ++ [(h, t, a)]

/-- Body of the inner loop of `deduplicate_articles` for one `article` of the
bucket of `topic`: on a hash collision the incoming article replaces the kept
one only if its `sentiment_score` is strictly greater (`list.remove` deletes
the first equal element, `append` adds at the end); otherwise it is discarded.
Unseen hashes are recorded and the article kept. -/
def dedupStep (topic : String) (st : DedupState) (article : Article) : DedupState :=
  let content_hash := generate_content_hash article
  match st.seen_hashes.lookup content_hash with
  | some (existing_topic, existing_article) =>
    if existing_article.sentiment_score < article.sentiment_score then
      { seen_hashes := updateSeen st.seen_hashes content_hash topic article
        deduplicated :=
          storeModify
            (storeModify st.deduplicated existing_topic (fun l => l.erase existing_article))
            topic (fun l => l ++ [article]) }
    else st
  | none =>
    { seen_hashes := updateSeen st.seen_hashes content_hash topic article
      deduplicated := storeModify st.deduplicated topic (fun l => l ++ [article]) }

/-- Outer loop body of `deduplicate_articles`: start the topic with an empty
bucket (`deduplicated[topic] = []`), then fold the articles. -/
def dedupTopicFold (st : DedupState) (p : String × List Article) : DedupState :=
  p.2.foldl (dedupStep p.1)
    { st with deduplicated := st.deduplicated ++ [(p.1, [])] }

/-- Embedding of `deduplicate_articles`: single forward pass over the store in
per-topic order, returning the rebuilt dict. -/
def deduplicate_articles (store : Store) : Store :=
  (store.foldl dedupTopicFold { seen_hashes := [], deduplicated := [] }).deduplicated

/-! ## Reference functions used to state the dedup claims -/

/-- The store flattened to `(topic, article)` pairs in iteration order. -/
def flatten (store : Store) : List (String × Article) :=
  store.flatMap (fun p => p.2.map (fun a => (p.1, a)))

/-- Replacement policy of the dedup pass: the incoming pair wins only when its
sentiment score is strictly greater. -/
def keepBetter (w ta : String × Article) : String × Article :=
  if w.2.sentiment_score < ta.2.sentiment_score then ta else w

/-- Step of `winnerOpt`. -/
def winnerStep (h : String) (acc : Option (String × Article)) (ta : String × Article) :
    Option (String × Article) :=
  if generate_content_hash ta.2 = h then
    match acc with
    | none => some ta
    | some w => some (keepBetter w ta)
  else acc

/-- The `(topic, article)` pair that survives deduplication for hash class `h`
of a processed sequence: the first article of the class, replaced whenever a
strictly higher-scoring one arrives — i.e. the first article attaining the
maximal sentiment score of the class. -/
def winnerOpt (l : List (String × Article)) (h : String) : Option (String × Article) :=
  l.foldl (winnerStep h) none

/-! ## Association-list lemmas for `Store` -/

theorem lookup_cons_pos {α β : Type} [BEq α] [LawfulBEq α] {t : α} {p : α × β}
    (ps : List (α × β)) (h : t = p.1) : ((p :: ps).lookup t) = some p.2 := by
  cases p; subst h; simp [List.lookup]

theorem lookup_cons_neg {α β : Type} [BEq α] [LawfulBEq α] {t : α} {p : α × β}
    (ps : List (α × β)) (h : ¬t = p.1) : ((p :: ps).lookup t) = ps.lookup t := by
  cases p
  simp only [List.lookup]
  rw [show (t == _) = false by simpa using h]

theorem lookup_append_of_none {α β : Type} [BEq α] [LawfulBEq α] {t : α}
    {l₁ : List (α × β)} (l₂ : List (α × β)) (h : l₁.lookup t = none) :
    (l₁ ++ l₂).lookup t = l₂.lookup t := by
  induction l₁ with
  | nil => rfl
  | cons p ps ih =>
    by_cases hp : t = p.1
    · rw [lookup_cons_pos ps hp] at h; cases h
    · rw [lookup_cons_neg ps hp] at h
      rw [List.cons_append, lookup_cons_neg _ hp, ih h]

theorem bucket_cons_pos (p : String × List Article)
    (ps : Store) {t : String} (h : t = p.1) : bucket (p :: ps) t = p.2 := by
  simp [bucket, lookup_cons_pos ps h]

theorem bucket_cons_neg (p : String × List Article)
    (ps : Store) {t : String} (h : ¬t = p.1) : bucket (p :: ps) t = bucket ps t := by
  simp [bucket, lookup_cons_neg ps h]

theorem lookup_isSome_keys {β : Type} (st : List (String × β)) (t : String) :
    (st.lookup t).isSome ↔ t ∈ st.map Prod.fst := by
  induction st with
  | nil => simp
  | cons p ps ih =>
    by_cases h : t = p.1
    · simp [lookup_cons_pos ps h, h]
    · simp [lookup_cons_neg ps h, ih, h]

theorem storeModify_keys (st : Store) (t : String) (f : List Article → List Article) :
    (storeModify st t f).map Prod.fst = st.map Prod.fst := by
  induction st with
  | nil => rfl
  | cons p ps ih =>
    by_cases h : p.1 = t <;> simp [storeModify, h, ih]

theorem bucket_storeModify_self {st : Store} {t : String}
    (f : List Article → List Article) (h : (st.lookup t).isSome) :
    bucket (storeModify st t f) t = f (bucket st t) := by
  induction st with
  | nil => simp [List.lookup] at h
  | cons p ps ih =>
    by_cases hp : p.1 = t
    · rw [storeModify, if_pos hp, bucket_cons_pos p ps (Eq.symm hp),
        bucket_cons_pos (p.1, f p.2) ps (Eq.symm hp)]
    · rw [lookup_cons_neg ps (fun hh => hp (Eq.symm hh))] at h
      rw [storeModify, if_neg hp, bucket_cons_neg p ps (fun hh => hp (Eq.symm hh)),
        bucket_cons_neg p (storeModify ps t f) (fun hh => hp (Eq.symm hh)), ih h]

theorem bucket_storeModify_ne {st : Store} {t t' : String}
    (f : List Article → List Article) (h : t' ≠ t) :
    bucket (storeModify st t f) t' = bucket st t' := by
  induction st with
  | nil => rfl
  | cons p ps ih =>
    by_cases hp : p.1 = t
    · have hp' : ¬t' = p.1 := by rw [hp]; exact h
      rw [storeModify, if_pos hp, bucket_cons_neg p ps hp',
        bucket_cons_neg (p.1, f p.2) ps hp']
    · by_cases hq : t' = p.1
      · rw [storeModify, if_neg hp, bucket_cons_pos p _ hq, bucket_cons_pos p ps hq]
      · rw [storeModify, if_neg hp, bucket_cons_neg p _ hq, bucket_cons_neg p ps hq, ih]

theorem bucket_append_left {st : Store} {t : String} (q : String × List Article)
    (h : (st.lookup t).isSome) :
    bucket (st ++ [q]) t = bucket st t := by
  induction st with
  | nil => simp [List.lookup] at h
  | cons p ps ih =>
    by_cases hp : t = p.1
    · rw [List.cons_append, bucket_cons_pos p _ hp, bucket_cons_pos p ps hp]
    · rw [lookup_cons_neg ps hp] at h
      rw [List.cons_append, bucket_cons_neg p _ hp, bucket_cons_neg p ps hp, ih h]

theorem bucket_append_new {st : Store} {t : String} (l : List Article)
    (h : ¬(st.lookup t).isSome) :
    bucket (st ++ [(t, l)]) t = l := by
  induction st with
  | nil => exact bucket_cons_pos (t, l) [] rfl
  | cons p ps ih =>
    by_cases hp : t = p.1
    · rw [lookup_cons_pos ps hp] at h; simp at h
    · rw [lookup_cons_neg ps hp] at h
      rw [List.cons_append, bucket_cons_neg p _ hp, ih h]

theorem bucket_append_ne {st : Store} {t t' : String} (l : List Article)
    (hne : t' ≠ t) (h : ¬(st.lookup t').isSome) :
    bucket (st ++ [(t, l)]) t' = [] := by
  induction st with
  | nil => rw [List.nil_append, bucket_cons_neg (t, l) [] hne]; rfl
  | cons p ps ih =>
    by_cases hp : t' = p.1
    · rw [lookup_cons_pos ps hp] at h; simp at h
    · rw [lookup_cons_neg ps hp] at h
      rw [List.cons_append, bucket_cons_neg p _ hp, ih h]

/-! ## Lemmas about `updateSeen` -/

theorem lookup_replaceSeen_self {seen : List (String × String × Article)}
    {h : String} (t : String) (a : Article) (hs : (seen.lookup h).isSome) :
    (seen.map (fun q => if q.1 = h then (h, t, a) else q)).lookup h = some (t, a) := by
  induction seen with
  | nil => simp [List.lookup] at hs
  | cons q qs ih =>
    by_cases hq : q.1 = h
    · rw [List.map_cons, if_pos hq]
      exact lookup_cons_pos _ rfl
    · rw [lookup_cons_neg qs (fun hh => hq (Eq.symm hh))] at hs
      rw [List.map_cons, if_neg hq, lookup_cons_neg _ (fun hh => hq (Eq.symm hh)), ih hs]

theorem lookup_replaceSeen_ne {seen : List (String × String × Article)}
    {h h' : String} (t : String) (a : Article) (hne : h' ≠ h) :
    (seen.map (fun q => if q.1 = h then (h, t, a) else q)).lookup h' = seen.lookup h' := by
  induction seen with
  | nil => rfl
  | cons q qs ih =>
    by_cases hq : q.1 = h
    · have hb : ¬h' = q.1 := by rw [hq]; exact hne
      rw [List.map_cons, if_pos hq, lookup_cons_neg _ hne,
        lookup_cons_neg qs hb, ih]
    · by_cases hq' : h' = q.1
      · rw [List.map_cons, if_neg hq, lookup_cons_pos _ hq', lookup_cons_pos qs hq']
      · rw [List.map_cons, if_neg hq, lookup_cons_neg _ hq', lookup_cons_neg qs hq', ih]

theorem lookup_updateSeen_self (seen : List (String × String × Article))
    (h t : String) (a : Article) :
    (updateSeen seen h t a).lookup h = some (t, a) := by
  unfold updateSeen
  by_cases hs : (seen.lookup h).isSome
  · rw [if_pos hs]; exact lookup_replaceSeen_self t a hs
  · rw [if_neg hs]
    have hnone : seen.lookup h = none := by
      cases hl : seen.lookup h
      · rfl
      · rw [hl] at hs; simp at hs
    rw [lookup_append_of_none _ hnone]
    exact lookup_cons_pos [] rfl

theorem lookup_updateSeen_ne (seen : List (String × String × Article))
    {h h' : String} (t : String) (a : Article) (hne : h' ≠ h) :
    (updateSeen seen h t a).lookup h' = seen.lookup h' := by
  unfold updateSeen
  by_cases hs : (seen.lookup h).isSome
  · rw [if_pos hs]; exact lookup_replaceSeen_ne t a hne
  · rw [if_neg hs]
    induction seen with
    | nil => rw [List.nil_append, lookup_cons_neg [] hne]
    | cons q qs ih =>
      by_cases hq : h' = q.1
      · rw [List.cons_append, lookup_cons_pos _ hq, lookup_cons_pos qs hq]
      · by_cases hq2 : h = q.1
        · rw [lookup_cons_pos qs hq2] at hs; simp at hs
        · rw [lookup_cons_neg qs hq2] at hs
          rw [List.cons_append, lookup_cons_neg _ hq, lookup_cons_neg qs hq, ih hs]

/-! ## Lemmas about `winnerOpt` -/

theorem winnerOpt_append_one (l : List (String × Article)) (h : String)
    (ta : String × Article) :
    winnerOpt (l ++ [ta]) h = winnerStep h (winnerOpt l h) ta := by
  simp [winnerOpt, List.foldl_append]

theorem winner_go_hash {h : String} :
    ∀ (l : List (String × Article)) (acc : Option (String × Article)),
      (∀ w, acc = some w → generate_content_hash w.2 = h) →
      ∀ w, l.foldl (winnerStep h) acc = some w → generate_content_hash w.2 = h := by
  intro l
  induction l with
  | nil => intro acc hacc w hw; exact hacc w hw
  | cons ta l ih =>
    intro acc hacc w hw
    refine ih (winnerStep h acc ta) ?_ w hw
    intro w' hw'
    unfold winnerStep at hw'
    by_cases hta : generate_content_hash ta.2 = h
    · simp only [hta, if_true] at hw'
      cases acc with
      | none => simp only [Option.some.injEq] at hw'; rw [← hw']; exact hta
      | some x =>
        simp only [Option.some.injEq] at hw'
        unfold keepBetter at hw'
        by_cases hcmp : x.2.sentiment_score < ta.2.sentiment_score
        · simp only [hcmp, if_true] at hw'; rw [← hw']; exact hta
        · simp only [hcmp, if_false] at hw'; rw [← hw']; exact hacc x rfl
    · simp only [hta, if_false] at hw'
      exact hacc w' hw'

theorem winner_go_mem {h : String} :
    ∀ (l : List (String × Article)) (acc : Option (String × Article)) (w : String × Article),
      l.foldl (winnerStep h) acc = some w → w ∈ l ∨ acc = some w := by
  intro l
  induction l with
  | nil => intro acc w hw; exact Or.inr hw
  | cons ta l ih =>
    intro acc w hw
    rcases ih (winnerStep h acc ta) w hw with hmem | hacc
    · exact Or.inl (List.mem_cons_of_mem _ hmem)
    · unfold winnerStep at hacc
      by_cases hta : generate_content_hash ta.2 = h
      · simp only [hta, if_true] at hacc
        cases acc with
        | none =>
          simp only [Option.some.injEq] at hacc
          exact Or.inl (hacc ▸ List.mem_cons_self ta l)
        | some x =>
          simp only [Option.some.injEq] at hacc
          unfold keepBetter at hacc
          by_cases hcmp : x.2.sentiment_score < ta.2.sentiment_score
          · simp only [hcmp, if_true] at hacc
            exact Or.inl (hacc ▸ List.mem_cons_self ta l)
          · simp only [hcmp, if_false] at hacc
            exact Or.inr (by rw [hacc])
      · simp only [hta, if_false] at hacc
        exact Or.inr hacc

theorem winner_go_max {h : String} :
    ∀ (l : List (String × Article)) (acc : Option (String × Article)) (w : String × Article),
      l.foldl (winnerStep h) acc = some w →
      (∀ x, acc = some x → x.2.sentiment_score ≤ w.2.sentiment_score) ∧
      (∀ ta ∈ l, generate_content_hash ta.2 = h →
        ta.2.sentiment_score ≤ w.2.sentiment_score) := by
  intro l
  induction l with
  | nil =>
    intro acc w hw
    refine ⟨fun x hx => ?_, by simp⟩
    simp only [List.foldl_nil] at hw
    rw [hx] at hw; cases hw; exact le_refl _
  | cons ta l ih =>
    intro acc w hw
    have hstep := ih (winnerStep h acc ta) w hw
    have hacc' : ∀ x, winnerStep h acc ta = some x →
        x.2.sentiment_score ≤ w.2.sentiment_score := hstep.1
    have hkey : ∀ x, acc = some x → x.2.sentiment_score ≤ w.2.sentiment_score := by
      intro x hx
      subst hx
      unfold winnerStep at hacc'
      by_cases hta : generate_content_hash ta.2 = h
      · simp only [hta, if_true] at hacc'
        have := hacc' (keepBetter x ta) rfl
        refine le_trans ?_ this
        unfold keepBetter
        by_cases hcmp : x.2.sentiment_score < ta.2.sentiment_score
        · simp only [hcmp, if_true]; exact le_of_lt hcmp
        · simp only [hcmp, if_false]; exact le_refl _
      · simp only [hta, if_false] at hacc'
        exact hacc' x rfl
    refine ⟨hkey, ?_⟩
    intro tb htb hhash
    rcases List.mem_cons.mp htb with heq | hmem
    · subst heq
      unfold winnerStep at hacc'
      simp only [hhash, if_true] at hacc'
      cases acc with
      | none => exact hacc' tb rfl
      | some x =>
        have := hacc' (keepBetter x tb) rfl
        refine le_trans ?_ this
        unfold keepBetter
        by_cases hcmp : x.2.sentiment_score < tb.2.sentiment_score
        · simp only [hcmp, if_true]; exact le_refl _
        · simp only [hcmp, if_false]; exact le_of_not_lt hcmp
    · exact hstep.2 tb hmem hhash

theorem winnerOpt_hash {l : List (String × Article)} {h : String} {w : String × Article}
    (hw : winnerOpt l h = some w) : generate_content_hash w.2 = h :=
  winner_go_hash l none (by simp) w hw

theorem winnerOpt_mem {l : List (String × Article)} {h : String} {w : String × Article}
    (hw : winnerOpt l h = some w) : w ∈ l := by
  rcases winner_go_mem l none w hw with hmem | hbad
  · exact hmem
  · cases hbad

theorem winnerOpt_max {l : List (String × Article)} {h : String} {w : String × Article}
    (hw : winnerOpt l h = some w) :
    ∀ ta ∈ l, generate_content_hash ta.2 = h →
      ta.2.sentiment_score ≤ w.2.sentiment_score :=
  (winner_go_max l none w hw).2

theorem winnerOpt_snoc_self (l : List (String × Article)) (t : String) (a : Article) :
    winnerOpt (l ++ [(t, a)]) (generate_content_hash a) =
      match winnerOpt l (generate_content_hash a) with
      | none => some (t, a)
      | some w => some (keepBetter w (t, a)) := by
  rw [winnerOpt_append_one]; unfold winnerStep; rw [if_pos rfl]

theorem winnerOpt_snoc_ne (l : List (String × Article)) (t : String) (a : Article)
    {h' : String} (hne : ¬generate_content_hash a = h') :
    winnerOpt (l ++ [(t, a)]) h' = winnerOpt l h' := by
  rw [winnerOpt_append_one]; unfold winnerStep; rw [if_neg hne]

/-! ## The invariant of the deduplication loop

After a prefix `processed` of the flattened store has been folded into the
state (`keys` being the topics whose buckets have been initialised so far):
the output keys are exactly `keys`; `seen_hashes` maps each hash to the
current winner of its class; and each bucket holds exactly the winners filed
under that topic, once each. -/

def Inv (processed : List (String × Article)) (keys : List String)
    (st : DedupState) : Prop :=
  st.deduplicated.map Prod.fst = keys ∧
  keys.Nodup ∧
  (∀ h, st.seen_hashes.lookup h = winnerOpt processed h) ∧
  (∀ t a, winnerOpt processed (generate_content_hash a) = some (t, a) → t ∈ keys) ∧
  (∀ t a, (bucket st.deduplicated t).count a =
      if winnerOpt processed (generate_content_hash a) = some (t, a) then 1 else 0)

theorem dedupStep_none {st : DedupState} (t : String) (a : Article)
    (hl : st.seen_hashes.lookup (generate_content_hash a) = none) :
    dedupStep t st a =
      { seen_hashes := updateSeen st.seen_hashes (generate_content_hash a) t a
        deduplicated := storeModify st.deduplicated t (fun l => l ++ [a]) } := by
  unfold dedupStep
  dsimp only
  rw [hl]

theorem dedupStep_lt {st : DedupState} (t : String) (a : Article) {tw : String} {w : Article}
    (hl : st.seen_hashes.lookup (generate_content_hash a) = some (tw, w))
    (hcmp : w.sentiment_score < a.sentiment_score) :
    dedupStep t st a =
      { seen_hashes := updateSeen st.seen_hashes (generate_content_hash a) t a
        deduplicated := storeModify
          (storeModify st.deduplicated tw (fun l => l.erase w))
          t (fun l => l ++ [a]) } := by
  unfold dedupStep
  dsimp only
  rw [hl]
  simp only [hcmp, if_true]

theorem dedupStep_ge {st : DedupState} (t : String) (a : Article) {tw : String} {w : Article}
    (hl : st.seen_hashes.lookup (generate_content_hash a) = some (tw, w))
    (hcmp : ¬w.sentiment_score < a.sentiment_score) :
    dedupStep t st a = st := by
  unfold dedupStep
  dsimp only
  rw [hl]
  simp only [hcmp, if_false]

theorem count_bucket_modify_append {D : Store} {t : String} (t₁ : String) (a a₁ : Article)
    (hts : (D.lookup t).isSome) :
    ((bucket (storeModify D t (fun l => l ++ [a])) t₁).count a₁ : Nat) =
      (bucket D t₁).count a₁ + if t₁ = t ∧ a₁ = a then 1 else 0 := by
  by_cases het : t₁ = t
  · subst het
    rw [bucket_storeModify_self _ hts, List.count_append]
    by_cases hea : a₁ = a
    · subst hea; simp
    · simp [List.count_singleton, hea, Ne.symm hea]
  · rw [bucket_storeModify_ne _ het]
    simp [het]

theorem count_bucket_modify_erase {D : Store} {tw : String} (t₁ : String) (w a₁ : Article)
    (htws : (D.lookup tw).isSome) :
    ((bucket (storeModify D tw (fun l => l.erase w)) t₁).count a₁ : Nat) =
      (bucket D t₁).count a₁ - if t₁ = tw ∧ a₁ = w then 1 else 0 := by
  by_cases het : t₁ = tw
  · subst het
    rw [bucket_storeModify_self _ htws]
    by_cases hea : a₁ = w
    · subst hea; simp
    · simp [List.count_erase_of_ne hea, hea]
  · rw [bucket_storeModify_ne _ het]; simp [het]

/-- One article step preserves the loop invariant (the heart of the dedup
correctness argument): split on whether the article's hash was seen and, on a
collision, whether the incoming sentiment score is strictly greater. -/
theorem dedupStep_inv {processed : List (String × Article)} {keys : List String}
    {st : DedupState} {t : String} (a : Article)
    (hInv : Inv processed keys st) (ht : t ∈ keys) :
    Inv (processed ++ [(t, a)]) keys (dedupStep t st a) := by
  obtain ⟨hkeys, hnodup, hseen, htop, hcount⟩ := hInv
  have htSome : (st.deduplicated.lookup t).isSome := by
    rw [lookup_isSome_keys, hkeys]; exact ht
  have hlook := hseen (generate_content_hash a)
  cases hw : winnerOpt processed (generate_content_hash a) with
  | none =>
    rw [hw] at hlook
    rw [dedupStep_none t a hlook]
    refine ⟨?_, hnodup, ?_, ?_, ?_⟩
    · dsimp only
      rw [storeModify_keys]; exact hkeys
    · dsimp only
      intro h'
      by_cases hph : generate_content_hash a = h'
      · subst hph
        rw [lookup_updateSeen_self, winnerOpt_snoc_self, hw]
      · rw [lookup_updateSeen_ne _ _ _ (fun hh => hph (Eq.symm hh)),
          winnerOpt_snoc_ne _ _ _ hph, hseen]
    · intro t₁ a₁ hw₁
      by_cases hph : generate_content_hash a₁ = generate_content_hash a
      · rw [hph, winnerOpt_snoc_self, hw] at hw₁
        have h2 : some (t, a) = some (t₁, a₁) := hw₁
        obtain ⟨h3, _⟩ := Prod.mk.injEq .. ▸ Option.some.injEq .. ▸ h2
        exact h3 ▸ ht
      · rw [winnerOpt_snoc_ne _ _ _ (fun hh => hph (Eq.symm hh))] at hw₁
        exact htop t₁ a₁ hw₁
    · dsimp only
      intro t₁ a₁
      rw [count_bucket_modify_append t₁ a a₁ htSome]
      by_cases hph : generate_content_hash a₁ = generate_content_hash a
      · have hwr : winnerOpt (processed ++ [(t, a)]) (generate_content_hash a₁) =
            some (t, a) := by
          rw [hph, winnerOpt_snoc_self, hw]
        rw [hwr]
        have hold := hcount t₁ a₁
        rw [hph, hw] at hold
        simp only [reduceCtorEq, if_false] at hold
        rw [hold]
        by_cases hta : t₁ = t ∧ a₁ = a
        · have hcpos : some (t, a) = some (t₁, a₁) := by rw [hta.1, hta.2]
          rw [if_pos hta, if_pos hcpos]
        · have hcneg : ¬some (t, a) = some (t₁, a₁) := by
            intro hc
            injection hc with h5
            injection h5 with h6 h7
            exact hta ⟨h6.symm, h7.symm⟩
          rw [if_neg hta, if_neg hcneg]
      · rw [winnerOpt_snoc_ne _ _ _ (fun hh => hph (Eq.symm hh))]
        have hold := hcount t₁ a₁
        rw [hold]
        have hne : ¬(t₁ = t ∧ a₁ = a) := fun hta => hph (hta.2 ▸ rfl)
        rw [if_neg hne]
        omega
  | some p =>
    obtain ⟨tw, w⟩ := p
    rw [hw] at hlook
    by_cases hcmp : w.sentiment_score < a.sentiment_score
    · -- strictly greater incoming score: evict `w` from `tw`, keep `a` in `t`
      rw [dedupStep_lt t a hlook hcmp]
      have hwhash : generate_content_hash w = generate_content_hash a :=
        winnerOpt_hash (w := (tw, w)) hw
      have htw : tw ∈ keys := htop tw w (by rw [hwhash]; exact hw)
      have htwSome : (st.deduplicated.lookup tw).isSome := by
        rw [lookup_isSome_keys, hkeys]; exact htw
      have htSome₁ :
          ((storeModify st.deduplicated tw (fun l => l.erase w)).lookup t).isSome := by
        rw [lookup_isSome_keys, storeModify_keys, hkeys]; exact ht
      have hane : a ≠ w := fun he => lt_irrefl _ (he ▸ hcmp)
      have hwinner : winnerOpt (processed ++ [(t, a)]) (generate_content_hash a) =
          some (t, a) := by
        rw [winnerOpt_snoc_self, hw]
        simp only [keepBetter, hcmp, if_true]
      refine ⟨?_, hnodup, ?_, ?_, ?_⟩
      · dsimp only
        rw [storeModify_keys, storeModify_keys]; exact hkeys
      · dsimp only
        intro h'
        by_cases hph : generate_content_hash a = h'
        · subst hph
          rw [lookup_updateSeen_self, hwinner]
        · rw [lookup_updateSeen_ne _ _ _ (fun hh => hph (Eq.symm hh)),
            winnerOpt_snoc_ne _ _ _ hph, hseen]
      · intro t₁ a₁ hw₁
        by_cases hph : generate_content_hash a₁ = generate_content_hash a
        · rw [hph, hwinner] at hw₁
          obtain ⟨h3, _⟩ := Prod.mk.injEq .. ▸ Option.some.injEq .. ▸ hw₁
          exact h3 ▸ ht
        · rw [winnerOpt_snoc_ne _ _ _ (fun hh => hph (Eq.symm hh))] at hw₁
          exact htop t₁ a₁ hw₁
      · dsimp only
        intro t₁ a₁
        rw [count_bucket_modify_append t₁ a a₁ htSome₁,
          count_bucket_modify_erase t₁ w a₁ htwSome]
        by_cases hph : generate_content_hash a₁ = generate_content_hash a
        · rw [hph, hwinner]
          have hold := hcount t₁ a₁
          rw [hph, hw] at hold
          by_cases hta : t₁ = t ∧ a₁ = a
          · -- the new winner's slot
            have hcpos : some (t, a) = some (t₁, a₁) := by rw [hta.1, hta.2]
            have hwne : ¬(t₁ = tw ∧ a₁ = w) := fun hq =>
              hane (hta.2.symm.trans hq.2)
            have hcneq : ¬some (tw, w) = some (t₁, a₁) := by
              intro hc
              injection hc with h5
              injection h5 with h6 h7
              exact hane ((h7.trans hta.2).symm)
            rw [if_pos hcpos, if_pos hta, if_neg hwne]
            have holdz : (bucket st.deduplicated t₁).count a₁ = 0 := by
              rw [hold, if_neg hcneq]
            omega
          · have hcneg : ¬some (t, a) = some (t₁, a₁) := by
              intro hc
              injection hc with h5
              injection h5 with h6 h7
              exact hta ⟨h6.symm, h7.symm⟩
            rw [if_neg hcneg, if_neg hta]
            by_cases htww : t₁ = tw ∧ a₁ = w
            · -- the evicted winner's slot
              have hcpos : some (tw, w) = some (t₁, a₁) := by rw [htww.1, htww.2]
              rw [if_pos htww]
              have hold1 : (bucket st.deduplicated t₁).count a₁ = 1 := by
                rw [hold, if_pos hcpos]
              omega
            · have hcneq : ¬some (tw, w) = some (t₁, a₁) := by
                intro hc
                injection hc with h5
                injection h5 with h6 h7
                exact htww ⟨h6.symm, h7.symm⟩
              rw [if_neg htww]
              have holdz : (bucket st.deduplicated t₁).count a₁ = 0 := by
                rw [hold, if_neg hcneq]
              omega
        · rw [winnerOpt_snoc_ne _ _ _ (fun hh => hph (Eq.symm hh))]
          have holda : ¬(t₁ = t ∧ a₁ = a) := fun hta => hph (hta.2 ▸ rfl)
          have holdw : ¬(t₁ = tw ∧ a₁ = w) := fun hq => hph (hq.2 ▸ hwhash)
          rw [if_neg holda, if_neg holdw, hcount t₁ a₁]
          omega
    · -- incoming score not strictly greater: the incoming article is discarded
      rw [dedupStep_ge t a hlook hcmp]
      have hsame : ∀ h', winnerOpt (processed ++ [(t, a)]) h' = winnerOpt processed h' := by
        intro h'
        by_cases hph : generate_content_hash a = h'
        · subst hph
          rw [winnerOpt_snoc_self, hw]
          simp only [keepBetter, hcmp, if_false]
        · exact winnerOpt_snoc_ne _ _ _ hph
      refine ⟨hkeys, hnodup, ?_, ?_, ?_⟩
      · intro h'; rw [hsame, hseen]
      · intro t₁ a₁ hw₁; rw [hsame] at hw₁; exact htop t₁ a₁ hw₁
      · intro t₁ a₁; rw [hsame, hcount t₁ a₁]

/-- Folding a whole bucket of articles of one (already initialised) topic
preserves the invariant. -/
theorem dedupFold_inv :
    ∀ (as : List Article) {processed : List (String × Article)} {keys : List String}
      {st : DedupState} {t : String},
      Inv processed keys st → t ∈ keys →
      Inv (processed ++ as.map (fun a => (t, a))) keys (as.foldl (dedupStep t) st) := by
  intro as
  induction as with
  | nil =>
    intro processed keys st t hInv _
    simpa using hInv
  | cons a as ih =>
    intro processed keys st t hInv ht
    have hstep := dedupStep_inv a hInv ht
    have := ih hstep ht
    simpa using this

/-- Initialising a fresh topic with an empty bucket preserves the invariant,
extending the key list. -/
theorem dedupBegin_inv {processed : List (String × Article)} {keys : List String}
    {st : DedupState} {t : String} (hInv : Inv processed keys st) (ht : t ∉ keys) :
    Inv processed (keys ++ [t])
      { st with deduplicated := st.deduplicated ++ [(t, [])] } := by
  obtain ⟨hkeys, hnodup, hseen, htop, hcount⟩ := hInv
  have hkeySome : ∀ t₁, t₁ ∈ keys ↔ (st.deduplicated.lookup t₁).isSome := by
    intro t₁; rw [lookup_isSome_keys, hkeys]
  refine ⟨?_, ?_, hseen, ?_, ?_⟩
  · dsimp only
    rw [List.map_append, hkeys]; rfl
  · rw [List.nodup_append]
    exact ⟨hnodup, List.nodup_singleton t, by simpa using ht⟩
  · intro t₁ a₁ hw₁
    exact List.mem_append_left _ (htop t₁ a₁ hw₁)
  · dsimp only
    intro t₁ a₁
    by_cases hs : (st.deduplicated.lookup t₁).isSome
    · rw [bucket_append_left _ hs, hcount t₁ a₁]
    · have hz : t₁ ∉ keys := fun hc => hs ((hkeySome t₁).mp hc)
      have hcond : ¬winnerOpt processed (generate_content_hash a₁) = some (t₁, a₁) :=
        fun hc => hz (htop t₁ a₁ hc)
      rw [if_neg hcond]
      by_cases hteq : t₁ = t
      · subst hteq
        rw [bucket_append_new _ hs]; rfl
      · rw [bucket_append_ne _ hteq hs]; rfl

/-- Folding whole topics (outer loop) preserves the invariant, processing the
flattened articles and appending the topics' keys. -/
theorem dedupOuter_inv :
    ∀ (store : Store) {processed : List (String × Article)} {keys : List String}
      {st : DedupState},
      Inv processed keys st →
      (store.map Prod.fst).Nodup →
      (∀ t ∈ store.map Prod.fst, t ∉ keys) →
      Inv (processed ++ flatten store) (keys ++ store.map Prod.fst)
        (store.foldl dedupTopicFold st) := by
  intro store
  induction store with
  | nil =>
    intro processed keys st hInv _ _
    simpa [flatten] using hInv
  | cons p rest ih =>
    intro processed keys st hInv hnodup hfresh
    obtain ⟨t, as⟩ := p
    have ht : t ∉ keys := hfresh t (by simp)
    have h1 := dedupBegin_inv hInv ht
    have h2 := dedupFold_inv as (t := t) h1 (by simp)
    have hnodup' : (rest.map Prod.fst).Nodup := (List.nodup_cons.mp hnodup).2
    have hfresh' : ∀ t' ∈ rest.map Prod.fst, t' ∉ keys ++ [t] := by
      intro t' ht' hc
      rcases List.mem_append.mp hc with hc1 | hc2
      · exact hfresh t' (List.mem_cons_of_mem _ ht') hc1
      · have : t' = t := by simpa using hc2
        exact (List.nodup_cons.mp hnodup).1 (this ▸ ht')
    have h3 := ih h2 hnodup' hfresh'
    have hflat : flatten ((t, as) :: rest) = as.map (fun a => (t, a)) ++ flatten rest := by
      simp [flatten]
    rw [hflat]
    have hfold : ((t, as) :: rest).foldl dedupTopicFold st =
        rest.foldl dedupTopicFold (dedupTopicFold st (t, as)) := rfl
    rw [hfold]
    have hTF : dedupTopicFold st (t, as) =
        as.foldl (dedupStep t) { st with deduplicated := st.deduplicated ++ [(t, [])] } := rfl
    rw [hTF]
    simpa [List.append_assoc] using h3

/-- The invariant holds of the initial state, and hence of the full run of
`deduplicate_articles`. -/
theorem dedup_inv (store : Store) (hkeys : (store.map Prod.fst).Nodup) :
    Inv (flatten store) (store.map Prod.fst)
      (store.foldl dedupTopicFold { seen_hashes := [], deduplicated := [] }) := by
  have hInit : Inv [] [] { seen_hashes := [], deduplicated := [] } := by
    refine ⟨rfl, List.nodup_nil, fun h => rfl, ?_, ?_⟩
    · intro t a hc
      simp [winnerOpt] at hc
    · intro t a
      rw [if_neg (by simp [winnerOpt])]
      rfl
  have := dedupOuter_inv store hInit hkeys (by simp)
  simpa using this

/-- The topic of a flattened pair is one of the store's keys. -/
theorem flatten_mem_keys {store : Store} {t : String} {a : Article}
    (h : (t, a) ∈ flatten store) : t ∈ store.map Prod.fst := by
  obtain ⟨p, hp, hmem⟩ := List.mem_flatMap.mp h
  obtain ⟨a2, _, heq⟩ := List.mem_map.mp hmem
  obtain ⟨het, _⟩ := Prod.mk.injEq .. ▸ heq
  exact List.mem_map.mpr ⟨p, hp, het⟩

/-- Membership in `flatten` transfers to the bucket of the same topic when the
store's keys are distinct. -/
theorem flatten_mem_bucket {store : Store} {t : String} {a : Article}
    (hkeys : (store.map Prod.fst).Nodup) (hmem : (t, a) ∈ flatten store) :
    a ∈ bucket store t := by
  induction store with
  | nil => simp [flatten] at hmem
  | cons p rest ih =>
    obtain ⟨t2, as⟩ := p
    have hflat : flatten ((t2, as) :: rest) = as.map (fun x => (t2, x)) ++ flatten rest := by
      simp [flatten]
    rw [hflat] at hmem
    rcases List.mem_append.mp hmem with hhead | htail
    · obtain ⟨a2, ha2, heq⟩ := List.mem_map.mp hhead
      obtain ⟨het, hea⟩ := Prod.mk.injEq .. ▸ heq
      rw [bucket_cons_pos _ rest het.symm]
      exact hea ▸ ha2
    · have hne : t ≠ t2 := by
        intro he
        subst he
        exact (List.nodup_cons.mp hkeys).1 (flatten_mem_keys htail)
      rw [bucket_cons_neg _ rest hne]
      exact ih (List.nodup_cons.mp hkeys).2 htail

/-! ## Claim theorems for the deduplication pass -/

/-- Concrete article used by the dedup witnesses: a 0.6-sentiment copy. -/
def artA06 : Article :=
  { title := "Hello World", link := "l1", summary := "Sunshine", published := "2024",
    sentiment_score := mkRat 6 10, inspiration_score := 5, is_inspirational := true,
    source_name := "feedA", topic_name := "a", topic_icon_path := none,
    image_url := "", tags := [] }

/-- Concrete article used by the dedup witnesses: a 0.9-sentiment copy with the
same normalized signature as `artA06`. -/
def artA09 : Article :=
  { title := "hello, world!", link := "l2", summary := "sunshine!!", published := "2024",
    sentiment_score := mkRat 9 10, inspiration_score := 5, is_inspirational := true,
    source_name := "feedB", topic_name := "b", topic_icon_path := none,
    image_url := "", tags := [] }

/-- C1: for every topic-keyed store (distinct topic keys, as in a Python dict),
`deduplicate_articles` leaves, in each content-hash class, exactly the winner
of the class — the first article attaining the maximal sentiment score, an
incoming article replacing the kept one only on strictly greater score
(`winnerOpt` is precisely that replacement policy).  The winner is an article
of the class drawn from the input whose score bounds every class member's
score, so in the 0.6/0.9 two-article scenario the 0.9 article survives in
either input order (see the witness). -/
theorem dedup_keeps_max_sentiment (store : Store)
    (hkeys : (store.map Prod.fst).Nodup) :
    (∀ t a, (bucket (deduplicate_articles store) t).count a =
        if winnerOpt (flatten store) (generate_content_hash a) = some (t, a) then 1
        else 0) ∧
    (∀ t a, winnerOpt (flatten store) (generate_content_hash a) = some (t, a) →
        (t, a) ∈ flatten store ∧
        ∀ ta ∈ flatten store,
          generate_content_hash ta.2 = generate_content_hash a →
            ta.2.sentiment_score ≤ a.sentiment_score) := by
  have hInv := dedup_inv store hkeys
  constructor
  · intro t a
    exact hInv.2.2.2.2 t a
  · intro t a hw
    exact ⟨winnerOpt_mem hw, winnerOpt_max hw⟩

/-- Witness for C1: on the two-article stores of the 0.6/0.9 scenario (both
input orders) the theorem applies and pins the counts: the 0.9 article
survives in its own topic, the 0.6 copy is gone. -/
theorem dedup_keeps_max_sentiment_witness :
    ((([("a", [artA06]), ("b", [artA09])] : Store).map Prod.fst).Nodup ∧
      (bucket (deduplicate_articles [("a", [artA06]), ("b", [artA09])]) "b").count artA09 = 1 ∧
      (bucket (deduplicate_articles [("a", [artA06]), ("b", [artA09])]) "a").count artA06 = 0) ∧
    ((([("a", [artA09]), ("b", [artA06])] : Store).map Prod.fst).Nodup ∧
      (bucket (deduplicate_articles [("a", [artA09]), ("b", [artA06])]) "a").count artA09 = 1 ∧
      (bucket (deduplicate_articles [("a", [artA09]), ("b", [artA06])]) "b").count artA06 = 0) := by
  have hA := (dedup_keeps_max_sentiment [("a", [artA06]), ("b", [artA09])] (by decide)).1
  have hB := (dedup_keeps_max_sentiment [("a", [artA09]), ("b", [artA06])] (by decide)).1
  refine ⟨⟨by decide, ?_, ?_⟩, by decide, ?_, ?_⟩
  · have h := hA "b" artA09
    rw [if_pos (by decide)] at h
    exact h
  · have h := hA "a" artA06
    rw [if_neg (by decide)] at h
    exact h
  · have h := hB "a" artA09
    rw [if_pos (by decide)] at h
    exact h
  · have h := hB "b" artA06
    rw [if_neg (by decide)] at h
    exact h

/-- C2: the content signature equals normalized title concatenated with the
first 100 characters of the normalized summary (the source's
`title + summary[:100] if summary else title` collapses to this, since
concatenating the empty take is the identity); the dedup key is the (md5,
modelled as an injective digest) hash of exactly this signature. -/
theorem content_signature_spec (a : Article) :
    generate_content_hash a =
      normalize_text a.title ++ String.mk ((normalize_text a.summary).data.take 100) := by
  unfold generate_content_hash
  by_cases h : normalize_text a.summary = ""
  · rw [h]
    simp only [ite_not, if_pos rfl]
    cases htitle : normalize_text a.title with
    | mk l =>
      show String.mk l = String.mk l ++ String.mk ([] : List Char)
      show String.mk l = String.mk (l ++ [])
      rw [List.append_nil]
  · simp [h]

/-- C10: deduplication is a frame on the topic structure — the output store
has exactly the input's topic keys in order (an emptied topic stays present),
and every surviving article still sits in the bucket it occupied in the
input. -/
theorem dedup_frame_topics (store : Store) (hkeys : (store.map Prod.fst).Nodup) :
    (deduplicate_articles store).map Prod.fst = store.map Prod.fst ∧
    ∀ t a, a ∈ bucket (deduplicate_articles store) t → a ∈ bucket store t := by
  have hInv := dedup_inv store hkeys
  constructor
  · exact hInv.1
  · intro t a hmem
    have hpos : 0 < (bucket (deduplicate_articles store) t).count a :=
      List.count_pos_iff.mpr hmem
    have hcnt := hInv.2.2.2.2 t a
    by_cases hcond :
        winnerOpt (flatten store) (generate_content_hash a) = some (t, a)
    · exact flatten_mem_bucket hkeys (winnerOpt_mem hcond)
    · rw [if_neg hcond] at hcnt
      have hz : (bucket (deduplicate_articles store) t).count a = 0 := hcnt
      omega

/-- Witness for C10: the frame theorem applied to a concrete two-topic store. -/
theorem dedup_frame_topics_witness :
    ((([("a", [artA06]), ("b", [artA09])] : Store).map Prod.fst).Nodup ∧
      (deduplicate_articles [("a", [artA06]), ("b", [artA09])]).map Prod.fst =
        ([("a", [artA06]), ("b", [artA09])] : Store).map Prod.fst) := by
  refine ⟨by decide, ?_⟩
  exact (dedup_frame_topics [("a", [artA06]), ("b", [artA09])] (by decide)).1

/-! ## The keyword/sentiment filter (`src/shared_data.py` lines 36-49,
`src/aggregator.py` lines 111-122, 422-434, 486-494) -/

/-- Negative keyword list, copied from `NEGATIVE_KEYWORDS` in
`src/shared_data.py`. -/
def NEGATIVE_KEYWORDS : List String :=
  ["politics", "political", "election", "vote", "government", "parliament", "congress",
   "sex", "sexual", "abuse", "assault",
   "crime", "murder", "killed", "death", "dead", "shooting", "stabbed", "violence",
   "violent", "arrest", "police", "theft", "robbery", "fraud",
   "stock market", "shares", "dow jones", "nasdaq", "finance", "economy", "economic",
   "recession", "inflation", "tariff",
   "war", "conflict", "military", "attack", "bombing", "invasion",
   "disaster", "crash", "crisis", "emergency",
   "protest", "riot",
   "scandal"]

/-- Positive keyword list, copied from `POSITIVE_KEYWORDS` in
`src/aggregator.py`. -/
def POSITIVE_KEYWORDS : List String :=
  ["achievement", "award", "breakthrough", "discovery", "honor", "milestone", "record",
   "success", "victory", "wins",
   "charitable", "community", "cooperation", "diversity", "donation", "equity",
   "generosity", "inclusion", "kindness", "nonprofit",
   "philanthropy", "together", "unity", "volunteer", "welfare",
   "happiness", "healing", "hope", "joy", "optimism", "peace", "positive", "resilience",
   "smile", "strength", "uplifting",
   "advancement", "development", "growth", "improvement", "innovation", "invention",
   "progress", "solution", "upgrade",
   "cured", "overcame", "recovery", "rescued", "restored", "reunion", "revival", "saved",
   "transformed", "turnaround",
   "amazing", "beautiful", "celebrated", "good samaritan", "hero", "inspiring",
   "remarkable", "surprise", "touching", "wonderful"]

/-- Sentiment threshold from `src/shared_data.py`: `POSITIVE_THRESHOLD = 0.80`. -/
def POSITIVE_THRESHOLD : Rat := mkRat 80 100

/-- Embedding of `contains_negative_keyword`: some negative keyword occurs as
a whole word (regex `\b...\b`) in the lowercased text; `False` for empty
text. -/
def contains_negative_keyword (text : String) : Bool :=
  if text ≠ "" then NEGATIVE_KEYWORDS.any (fun kw => containsWholeWord kw (lowerStr text))
  else false

/-- Embedding of `contains_positive_keyword` (same shape over the positive
list). -/
def contains_positive_keyword (text : String) : Bool :=
  if text ≠ "" then POSITIVE_KEYWORDS.any (fun kw => containsWholeWord kw (lowerStr text))
  else false

/-- Embedding of `get_positive_sentiment_score`: the VADER compound score (an
external deterministic model, passed as the parameter `vader`), `0.0` for
empty text. -/
def get_positive_sentiment_score (vader : String → Rat) (text : String) : Rat :=
  if text ≠ "" then vader text else 0

/-- Embedding of `classify_with_llm`: the LLM gate is disabled in the source
and always returns `True`. -/
def classify_with_llm (_text : String) : Bool := true

/-- The admission decision of the per-entry filter chain in
`fetch_and_filter_feeds` (lines 486-494): reject on a negative keyword in
title or summary, otherwise admit iff the compound sentiment of
`title + ". " + summary` strictly exceeds `POSITIVE_THRESHOLD` or the combined
text has a whole-word positive-keyword match (conjoined with the constant-true
LLM gate). -/
def passes_filter (vader : String → Rat) (title summary : String) : Bool :=
  if contains_negative_keyword title || contains_negative_keyword summary then false
  else
    let combined_text := title ++ ". " ++ summary
    let sentiment_score := get_positive_sentiment_score vader combined_text
    let is_positive :=
      decide (POSITIVE_THRESHOLD < sentiment_score) || contains_positive_keyword combined_text
    is_positive && classify_with_llm combined_text

/-- C3: the filter rejects on any whole-word negative keyword in title or
summary regardless of the sentiment value; an entry passing the negative
check is admitted iff the compound of `title + ". " + summary` exceeds the
threshold or the combined text has a whole-word positive keyword; and
whole-word matching distinguishes "election" (rejected) from "selection"
(not matched by that keyword). -/
theorem filter_admission_spec (vader : String → Rat) (title summary : String) :
    ((contains_negative_keyword title || contains_negative_keyword summary) = true →
      passes_filter vader title summary = false) ∧
    (contains_negative_keyword title = false →
      contains_negative_keyword summary = false →
      (passes_filter vader title summary = true ↔
        (POSITIVE_THRESHOLD <
            get_positive_sentiment_score vader (title ++ ". " ++ summary) ∨
          contains_positive_keyword (title ++ ". " ++ summary) = true))) ∧
    contains_negative_keyword "The town held an election today" = true ∧
    contains_negative_keyword "A fine selection of cheeses" = false := by
  refine ⟨?_, ?_, by decide, by decide⟩
  · intro hneg
    unfold passes_filter
    rw [if_pos hneg]
  · intro ht hs
    unfold passes_filter
    rw [if_neg (by simp [ht, hs])]
    simp [classify_with_llm, decide_eq_true_iff]

/-- Witness for C3: at concrete inputs, an election summary is rejected even
with compound sentiment 1, and a selection summary's admission reduces to the
sentiment/positive-keyword disjunction. -/
theorem filter_admission_spec_witness :
    (contains_negative_keyword "Nice day" ||
        contains_negative_keyword "The town held an election today") = true ∧
    passes_filter (fun _ => 1) "Nice day" "The town held an election today" = false ∧
    (passes_filter (fun _ => 1) "Nice day" "A fine selection of cheeses" = true ↔
      (POSITIVE_THRESHOLD <
          get_positive_sentiment_score (fun _ => 1)
            ("Nice day" ++ ". " ++ "A fine selection of cheeses") ∨
        contains_positive_keyword
          ("Nice day" ++ ". " ++ "A fine selection of cheeses") = true)) := by
  refine ⟨by decide, ?_, ?_⟩
  · exact (filter_admission_spec (fun _ => 1) "Nice day"
      "The town held an election today").1 (by decide)
  · exact (filter_admission_spec (fun _ => 1) "Nice day"
      "A fine selection of cheeses").2.1 (by decide) (by decide)

/-! ## The inspiration scorer (`src/aggregator.py` lines 278-308) -/

/-- High-impact keyword list from `score_inspiration_with_llm`. -/
def high_impact_words : List String :=
  ["breakthrough", "triumph", "overcame", "hero", "saved", "rescued"]

/-- The dimension map returned by the scorer (all six entries equal in the
heuristic variant). -/
structure InspirationScores where
  composite : Rat
  emotional : Rat
  triumph : Rat
  social : Rat
  novelty : Rat
  actionable : Rat
deriving DecidableEq, Repr

/-- Floor of a rational (`Rat.floor`, the largest integer below). -/
def floorRat (q : Rat) : Int := q.floor

/-- Rounding to the nearest integer with ties to even, the semantics of
CPython's `round` (idealised over exact rationals). -/
def roundHalfEven (q : Rat) : Int :=
  let f := floorRat q
  let frac := q - (f : Rat)
  if frac < mkRat 1 2 then f
  else if mkRat 1 2 < frac then f + 1
  else if f % 2 = 0 then f else f + 1

/-- Embedding of Python's `round(q, 1)`: round on the tenths grid. -/
def pyRound1 (q : Rat) : Rat := mkRat (roundHalfEven (q * 10)) 10

/-- Embedding of `score_inspiration_with_llm` (the live heuristic variant):
base 5 shifted by `compound * 5`, plus `1.0` per distinct high-impact keyword
occurring as a substring of the lowercased text, clamped to `[1, 10]` by
`min(10, max(1, score))` and rounded to one decimal; every dimension is set to
the composite. -/
def score_inspiration_with_llm (vader : String → Rat) (text : String) : InspirationScores :=
  let text_lower := lowerStr text
  let compound := vader text
  let score : Rat := 5 + compound * 5
  let high_matches : Nat :=
    (high_impact_words.filter (fun w => containsSub text_lower.data w.data)).length
  let score := score + (high_matches : Rat) * 1
  let score := min 10 (max 1 score)
  { composite := pyRound1 score, emotional := pyRound1 score, triumph := pyRound1 score,
    social := pyRound1 score, novelty := pyRound1 score, actionable := pyRound1 score }

theorem floorRat_eq_floor (q : Rat) : floorRat q = ⌊q⌋ := by
  rw [floorRat, Rat.floor_def', Rat.floor_def]

theorem floorRat_le (q : Rat) : (floorRat q : Rat) ≤ q := by
  rw [floorRat_eq_floor]; exact Int.floor_le q

theorem le_floorRat {n : Int} {q : Rat} (h : (n : Rat) ≤ q) : n ≤ floorRat q := by
  rw [floorRat_eq_floor]; exact Int.le_floor.mpr h

theorem roundHalfEven_le {q : Rat} {n : Int} (h : q ≤ (n : Rat)) :
    roundHalfEven q ≤ n := by
  unfold roundHalfEven
  by_cases h1 : q - (floorRat q : Rat) < mkRat 1 2
  · rw [if_pos h1]
    have : (floorRat q : Rat) ≤ (n : Rat) := le_trans (floorRat_le q) h
    exact_mod_cast this
  · rw [if_neg h1]
    have hfrac : mkRat 1 2 ≤ q - (floorRat q : Rat) := le_of_not_lt h1
    have hpos : (0 : Rat) < mkRat 1 2 := by norm_num
    have hlt : (floorRat q : Rat) < q := by
      have := lt_of_lt_of_le hpos hfrac
      linarith
    have hltn : (floorRat q : Rat) < (n : Rat) := lt_of_lt_of_le hlt h
    have hint : floorRat q < n := by exact_mod_cast hltn
    by_cases h2 : mkRat 1 2 < q - (floorRat q : Rat)
    · rw [if_pos h2]; omega
    · rw [if_neg h2]
      by_cases h3 : floorRat q % 2 = 0
      · rw [if_pos h3]; omega
      · rw [if_neg h3]; omega

theorem le_roundHalfEven {q : Rat} {n : Int} (h : (n : Rat) ≤ q) :
    n ≤ roundHalfEven q := by
  unfold roundHalfEven
  have hnf : n ≤ floorRat q := le_floorRat h
  by_cases h1 : q - (floorRat q : Rat) < mkRat 1 2
  · rw [if_pos h1]; exact hnf
  · rw [if_neg h1]
    by_cases h2 : mkRat 1 2 < q - (floorRat q : Rat)
    · rw [if_pos h2]; omega
    · rw [if_neg h2]
      by_cases h3 : floorRat q % 2 = 0
      · rw [if_pos h3]; exact hnf
      · rw [if_neg h3]; omega

theorem pyRound1_bounds {q : Rat} (h1 : 1 ≤ q) (h10 : q ≤ 10) :
    1 ≤ pyRound1 q ∧ pyRound1 q ≤ 10 := by
  unfold pyRound1
  have hlo : (10 : Int) ≤ roundHalfEven (q * 10) := by
    apply le_roundHalfEven
    push_cast
    linarith
  have hhi : roundHalfEven (q * 10) ≤ (100 : Int) := by
    apply roundHalfEven_le
    push_cast
    linarith
  rw [Rat.mkRat_eq_div]
  push_cast
  constructor
  · rw [le_div_iff₀ (by norm_num : (0 : Rat) < 10)]
    have : (10 : Rat) ≤ (roundHalfEven (q * 10) : Rat) := by exact_mod_cast hlo
    linarith
  · rw [div_le_iff₀ (by norm_num : (0 : Rat) < 10)]
    have : ((roundHalfEven (q * 10) : Int) : Rat) ≤ (100 : Rat) := by exact_mod_cast hhi
    linarith

/-- C4: the composite equals `round(min(10, max(1, 5 + compound*5 + hits)), 1)`
with `hits` the number of distinct high-impact keywords occurring in the
lowercased text; it always lies in `[1, 10]`; and empty text (whose compound
is `0` under VADER, taken as a hypothesis on the abstract sentiment model)
yields the midpoint `5`. -/
theorem inspiration_score_spec (vader : String → Rat) :
    (∀ text, (score_inspiration_with_llm vader text).composite =
        pyRound1 (min 10 (max 1 (5 + vader text * 5 +
          ((high_impact_words.filter (fun w =>
            containsSub (lowerStr text).data w.data)).length : Rat))))) ∧
    (∀ text, 1 ≤ (score_inspiration_with_llm vader text).composite ∧
        (score_inspiration_with_llm vader text).composite ≤ 10) ∧
    (vader "" = 0 → (score_inspiration_with_llm vader "").composite = 5) := by
  refine ⟨?_, ?_, ?_⟩
  · intro text
    unfold score_inspiration_with_llm
    dsimp only
    rw [mul_one]
  · intro text
    unfold score_inspiration_with_llm
    dsimp only
    apply pyRound1_bounds
    · exact le_min (by norm_num) (le_max_left 1 _)
    · exact min_le_left 10 _
  · intro hv
    unfold score_inspiration_with_llm
    rw [hv]
    decide

/-- Witness for C4: the constant-zero sentiment model satisfies the empty-text
hypothesis, and the theorem pins the scorer's value and bounds there. -/
theorem inspiration_score_spec_witness :
    ((fun _ : String => (0 : Rat)) "" = 0) ∧
    (score_inspiration_with_llm (fun _ => 0) "").composite = 5 ∧
    (1 ≤ (score_inspiration_with_llm (fun _ => 0) "breakthrough hero").composite ∧
      (score_inspiration_with_llm (fun _ => 0) "breakthrough hero").composite ≤ 10) := by
  refine ⟨rfl, ?_, ?_⟩
  · exact (inspiration_score_spec (fun _ => 0)).2.2 rfl
  · exact (inspiration_score_spec (fun _ => 0)).2.1 "breakthrough hero"

/-! ## The tag classifier (`src/aggregator.py` lines 163-265) -/

/-- Phrase lists of the tag rules, copied from `classify_article_tags`. -/
def heartwarming_words : List String :=
  ["heartwarming", "touching story", "brought tears", "emotional reunion", "moved to tears"]

def uplifting_words : List String :=
  ["uplifting", "gives hope", "hopeful", "silver lining", "bright future",
   "positive outlook", "reason to smile"]

def motivating_words : List String :=
  ["inspiring", "motivating", "never gave up", "perseverance", "overcame odds",
   "against all odds", "defied expectations", "triumph"]

def calming_words : List String :=
  ["meditation", "mindfulness practice", "peaceful", "tranquil", "serene", "relaxation"]

def breakthrough_words : List String :=
  ["breakthrough", "scientific discovery", "groundbreaking", "first time ever",
   "world first", "unprecedented", "revolutionary"]

def success_words : List String :=
  ["success story", "achieved dream", "reached milestone", "accomplished goal",
   "dreams come true", "made it"]

def community_words : List String :=
  ["community came together", "neighbors helped", "village rallied", "town united",
   "collective effort", "community project"]

def kindness_words : List String :=
  ["act of kindness", "good samaritan", "hero saved", "rescued", "selfless act",
   "helped stranger", "paid it forward"]

def health_words : List String :=
  ["medical breakthrough", "new treatment", "cure", "healing", "health recovery",
   "patients benefited"]

def mental_health_words : List String :=
  ["mental health breakthrough", "therapy success", "depression treatment",
   "anxiety relief", "mental wellness"]

def eco_words : List String :=
  ["environmental victory", "climate solution", "saved ecosystem",
   "renewable energy breakthrough", "carbon neutral", "restored habitat"]

def education_words : List String :=
  ["education breakthrough", "learning revolution", "scholarship program",
   "students excelled", "teaching innovation"]

def solution_words : List String :=
  ["solution to", "solved problem", "innovative approach", "new way to", "game-changing"]

/-- Fallback indicator words of the lenient "Inspiring" rule. -/
def inspiring_simple_words : List String :=
  ["inspiring", "amazing", "incredible", "extraordinary", "remarkable"]

/-- Embedding of `any(phrase in combined for phrase in words)`. -/
def anyPhrase (ws : List String) (combined : String) : Bool :=
  ws.any (fun p => containsSub combined.data p.data)

/-- The tag list built by the rule cascade of `classify_article_tags`, in the
source's evaluation order, before deduplication and truncation.  `combined` is
`lowercased title + " " + lowercased summary`; topic gates are substring tests
on the lowercased `topic_name`. -/
def firedTags (article : Article) : List Tag :=
  let title := lowerStr article.title
  let summary := lowerStr article.summary
  let combined := title ++ " " ++ summary
  let topic := lowerStr article.topic_name
  let tags : List Tag := []
  let tags := if anyPhrase heartwarming_words combined then
      tags ++ [{ name := "Heartwarming", color := "#e76f51", icon := "💝" }] else tags
  let tags := if anyPhrase uplifting_words combined then
      tags ++ [{ name := "Uplifting", color := "#f4a261", icon := "🌟" }] else tags
  let tags := if anyPhrase motivating_words combined then
      tags ++ [{ name := "Motivating", color := "#2a9d8f", icon := "💪" }] else tags
  let tags := if anyPhrase calming_words combined && containsSub topic.data "health".data then
      tags ++ [{ name := "Calming", color := "#457b9d", icon := "🧘" }] else tags
  let tags := if anyPhrase breakthrough_words combined then
      tags ++ [{ name := "Breakthrough", color := "#8338ec", icon := "💡" }] else tags
  let tags := if anyPhrase success_words combined then
      tags ++ [{ name := "Success Story", color := "#06a77d", icon := "🏆" }] else tags
  let tags := if anyPhrase community_words combined then
      tags ++ [{ name := "Community", color := "#ff006e", icon := "🤝" }] else tags
  let tags := if anyPhrase kindness_words combined then
      tags ++ [{ name := "Acts of Kindness", color := "#fb5607", icon := "❤️" }] else tags
  let tags := if (containsSub topic.data "health".data ||
        containsSub topic.data "wellness".data) && anyPhrase health_words combined then
      tags ++ [{ name := "Health Innovation", color := "#06a77d", icon := "🩺" }] else tags
  let tags := if anyPhrase mental_health_words combined then
      tags ++ [{ name := "Mental Health", color := "#7209b7", icon := "🧠" }] else tags
  let tags := if containsSub topic.data "environment".data &&
        anyPhrase eco_words combined then
      tags ++ [{ name := "Eco-Friendly", color := "#52b788", icon := "🌱" }] else tags
  let tags := if anyPhrase education_words combined then
      tags ++ [{ name := "Educational", color := "#4361ee", icon := "📚" }] else tags
  let tags := if anyPhrase solution_words combined then
      tags ++ [{ name := "Problem Solver", color := "#f72585", icon := "✅" }] else tags
  let tags := if tags = [] ∧ (8 : Rat) ≤ article.inspiration_score then
      (if anyPhrase inspiring_simple_words combined then
        tags ++ [{ name := "Inspiring", color := "#e76f51", icon := "⭐" }] else tags)
    else tags
  tags

/-- Deduplication by tag name preserving first-seen order (the source's
`seen` set / `unique_tags` loop); `acc` is the output so far, `seen` the
names already emitted. -/
def dedupTagsGo : List Tag → List Tag → List String → List Tag
  | [], acc, _ => acc
  | tag :: rest, acc, seen =>
    if tag.name ∈ seen then dedupTagsGo rest acc seen
    else dedupTagsGo rest (acc ++ [tag]) (seen ++ [tag.name])

/-- Embedding of `classify_article_tags`: evaluate the rule cascade, then
deduplicate by name preserving order and truncate to the first 2.  (The
`try/except` wrapper returning `[]` on an internal exception is part of the
exception model of the pipeline section.) -/
def classify_article_tags (article : Article) : List Tag :=
  (dedupTagsGo (firedTags article) [] []).take 2

theorem dedupTagsGo_names :
    ∀ (l : List Tag) (acc : List Tag) (seen : List String),
      seen = acc.map Tag.name → seen.Nodup →
      ((dedupTagsGo l acc seen).map Tag.name).Nodup := by
  intro l
  induction l with
  | nil =>
    intro acc seen hseen hnodup
    rw [dedupTagsGo, ← hseen]; exact hnodup
  | cons tag rest ih =>
    intro acc seen hseen hnodup
    rw [dedupTagsGo]
    by_cases hmem : tag.name ∈ seen
    · rw [if_pos hmem]; exact ih acc seen hseen hnodup
    · rw [if_neg hmem]
      refine ih (acc ++ [tag]) (seen ++ [tag.name]) ?_ ?_
      · rw [hseen, List.map_append]; rfl
      · rw [List.nodup_append]
        exact ⟨hnodup, List.nodup_singleton _, by simpa using hmem⟩

/-- C5: `classify_article_tags` returns at most 2 tags with pairwise-distinct
names, and is exactly the first-seen-order name-deduplication of the fired
tags truncated to 2. -/
theorem classify_tags_spec (article : Article) :
    (classify_article_tags article).length ≤ 2 ∧
    ((classify_article_tags article).map Tag.name).Nodup ∧
    classify_article_tags article = (dedupTagsGo (firedTags article) [] []).take 2 := by
  refine ⟨?_, ?_, rfl⟩
  · rw [classify_article_tags, List.length_take]
    omega
  · rw [classify_article_tags, List.map_take]
    exact List.Nodup.sublist (List.take_sublist _ _)
      (dedupTagsGo_names (firedTags article) [] [] rfl List.nodup_nil)

/-! ## The topic classifier (`src/aggregator.py` lines 127-160, 399-419) -/

/-- Topic keyword table, copied from `TOPIC_KEYWORDS` in `src/aggregator.py`
(association list in the dict's declaration order). -/
def TOPIC_KEYWORDS : List (String × List String) :=
  [("technology", ["tech", "ai", "artificial intelligence", "software", "startup",
      "innovation", "digital", "crypto", "blockchain", "app", "programming", "gadget",
      "smartphone", "computer"]),
   ("science", ["science", "research", "space", "nasa", "physics", "biology",
      "discovery", "study", "breakthrough", "scientific", "astronomy", "climate",
      "medical research"]),
   ("business", ["business", "entrepreneur", "startup", "company", "market",
      "investment", "success story", "career", "leadership", "innovation", "growth",
      "revenue", "ipo", "venture capital"]),
   ("health", ["health", "wellness", "fitness", "mental health", "meditation",
      "nutrition", "exercise", "therapy", "mindfulness", "wellbeing", "recovery",
      "breakthrough treatment"]),
   ("environment", ["environment", "climate solution", "sustainability",
      "renewable energy", "conservation", "green technology", "solar", "wind power",
      "electric vehicle", "carbon neutral", "recycling"]),
   ("personal_growth", ["motivation", "inspiration", "personal development",
      "achievement", "success", "goal", "mindset", "productivity", "habits",
      "self-improvement", "overcome", "transformation"]),
   ("social_impact", ["community", "charity", "volunteer", "nonprofit", "social good",
      "donation", "helping", "kindness", "philanthropy", "activism", "change maker",
      "impact"]),
   ("culture", ["art", "music", "film", "book", "culture", "creative", "artist",
      "performance", "exhibition", "theater", "design", "photography"]),
   ("travel", ["travel", "destination", "adventure", "tourism", "explore", "journey",
      "vacation", "wanderlust", "discovery", "cultural exchange"]),
   ("relationships", ["relationship", "marriage", "friendship", "family", "connection",
      "love", "support", "community", "belonging", "human interest"]),
   ("sports", ["sport", "athlete", "championship", "victory", "record", "comeback",
      "perseverance", "team", "competition", "fitness achievement"])]

/-- Non-overlapping scan counting whole-word matches of `kw` from position
`i`, the semantics of `re.findall(r"\b" + kw + r"\b", text)`: on a match the
scan resumes after it, otherwise at the next position.  `fuel` bounds the
recursion (`text.length + 1` suffices since every step advances). -/
def countMatchesGo (kw text : List Char) : Nat → Nat → Nat
  | 0, _ => 0
  | fuel + 1, i =>
    if text.length < i then 0
    else if wholeWordAt kw text i then 1 + countMatchesGo kw text fuel (i + kw.length)
    else countMatchesGo kw text fuel (i + 1)

/-- Number of whole-word `re.findall` matches of a (non-empty) keyword. -/
def countWholeWord (kw text : List Char) : Nat :=
  if kw.isEmpty then 0 else countMatchesGo kw text (text.length + 1) 0

/-- The per-topic scores of `get_topic_and_icon`: whole-word match counts of
each topic's keywords summed over the lowercased `title + " " + summary`, in
table order. -/
def topic_scores (title summary : String) : List (String × Nat) :=
  let text_lower := lowerStr (title ++ " " ++ summary)
  TOPIC_KEYWORDS.map (fun p =>
    (p.1, (p.2.map (fun kw => countWholeWord kw.data text_lower.data)).sum))

/-- Fold mirroring CPython's `max(items, key=...)`: the running best is
replaced only on a strictly greater key, so the first maximum wins. -/
def foldMaxBy (l : List (String × Nat)) (init : String × Nat) : String × Nat :=
  l.foldl (fun best q => if best.2 < q.2 then q else best) init

/-- Embedding of `max(topic_scores.items(), key=lambda x: x[1])`. -/
def maxByFirst : List (String × Nat) → String × Nat
  | [] => ("", 0)
  | p :: ps => foldMaxBy ps p

/-- Icon path construction `f"/openmoji/color/svg/{hex}.svg" if emoji_hex else
None` over the abstract topic→hex map. -/
def iconPath (icon_map : String → Option String) (key : String) : Option String :=
  match icon_map key with
  | some hex => if hex ≠ "" then some ("/openmoji/color/svg/" ++ hex ++ ".svg") else none
  | none => none

/-- Embedding of `get_topic_and_icon`: score every topic, and if any score is
non-zero return the first topic attaining the maximum with its icon, else the
`general` topic with the `good news` fallback icon.  The topic→hex map
(`topic_icon_map`, built at import time from the OpenMoji CSV plus hardcoded
fallbacks) is an external table passed as `icon_map`. -/
def get_topic_and_icon (icon_map : String → Option String) (title summary : String) :
    String × Option String :=
  let scores := topic_scores title summary
  if scores.any (fun p => p.2 ≠ 0) then
    let best_topic := (maxByFirst scores).1
    (best_topic, iconPath icon_map best_topic)
  else
    ("general", iconPath icon_map "good news")

theorem foldMaxBy_cons (q : String × Nat) (ls : List (String × Nat))
    (init : String × Nat) :
    foldMaxBy (q :: ls) init = foldMaxBy ls (if init.2 < q.2 then q else init) := rfl

theorem foldMaxBy_le :
    ∀ (ls : List (String × Nat)) (init : String × Nat),
      ∀ p ∈ init :: ls, p.2 ≤ (foldMaxBy ls init).2 := by
  intro ls
  induction ls with
  | nil =>
    intro init p hp
    have : p = init := by simpa using hp
    subst this
    exact le_refl _
  | cons q ls ih =>
    intro init p hp
    rw [foldMaxBy_cons]
    have hble : init.2 ≤ (if init.2 < q.2 then q else init).2 ∧
        q.2 ≤ (if init.2 < q.2 then q else init).2 := by
      by_cases hcmp : init.2 < q.2
      · rw [if_pos hcmp]; omega
      · rw [if_neg hcmp]; omega
    rcases List.mem_cons.mp hp with h1 | h2
    · subst h1
      exact le_trans hble.1 (ih _ _ (List.mem_cons_self _ _))
    · rcases List.mem_cons.mp h2 with h3 | h4
      · subst h3
        exact le_trans hble.2 (ih _ _ (List.mem_cons_self _ _))
      · exact ih _ p (List.mem_cons_of_mem _ h4)

theorem foldMaxBy_find :
    ∀ (ls : List (String × Nat)) (init : String × Nat),
      (init :: ls).find? (fun p => decide ((foldMaxBy ls init).2 ≤ p.2)) =
        some (foldMaxBy ls init) := by
  intro ls
  induction ls with
  | nil =>
    intro init
    rw [List.find?_cons_of_pos _ (by simp [foldMaxBy])]
    rfl
  | cons q ls ih =>
    intro init
    by_cases hcmp : init.2 < q.2
    · have hstep : foldMaxBy (q :: ls) init = foldMaxBy ls q := by
        rw [foldMaxBy_cons, if_pos hcmp]
      rw [hstep]
      have hq : q.2 ≤ (foldMaxBy ls q).2 := foldMaxBy_le ls q q (List.mem_cons_self _ _)
      have hinit : ¬(foldMaxBy ls q).2 ≤ init.2 := by omega
      rw [List.find?_cons_of_neg _ (by simpa using hinit)]
      exact ih q
    · have hstep : foldMaxBy (q :: ls) init = foldMaxBy ls init := by
        rw [foldMaxBy_cons, if_neg hcmp]
      rw [hstep]
      have hih := ih init
      by_cases hhead : (foldMaxBy ls init).2 ≤ init.2
      · rw [List.find?_cons_of_pos _ (by simpa using hhead)]
        rw [List.find?_cons_of_pos _ (by simpa using hhead)] at hih
        exact hih
      · rw [List.find?_cons_of_neg _ (by simpa using hhead)] at hih
        rw [List.find?_cons_of_neg _ (by simpa using hhead)]
        have hqle : ¬(foldMaxBy ls init).2 ≤ q.2 := by omega
        rw [List.find?_cons_of_neg _ (by simpa using hqle)]
        exact hih

/-- C6: when every topic's whole-word keyword count over the lowercased
combined text is zero, the classifier returns `general` with the `good news`
fallback icon; otherwise it returns the first topic of the table to attain
the maximal count — `find?` for the maximal score hits exactly the returned
topic — together with that topic's icon. -/
theorem topic_classifier_spec (icon_map : String → Option String)
    (title summary : String) :
    (¬(topic_scores title summary).any (fun p => p.2 ≠ 0) = true →
      get_topic_and_icon icon_map title summary =
        ("general", iconPath icon_map "good news")) ∧
    ((topic_scores title summary).any (fun p => p.2 ≠ 0) = true →
      ∃ m,
        (topic_scores title summary).find? (fun p => decide (m ≤ p.2)) =
          some ((get_topic_and_icon icon_map title summary).1, m) ∧
        (∀ p ∈ topic_scores title summary, p.2 ≤ m) ∧
        (get_topic_and_icon icon_map title summary).2 =
          iconPath icon_map (get_topic_and_icon icon_map title summary).1) := by
  constructor
  · intro hz
    unfold get_topic_and_icon
    rw [if_neg hz]
  · intro hany
    have hgt : get_topic_and_icon icon_map title summary =
        ((maxByFirst (topic_scores title summary)).1,
          iconPath icon_map (maxByFirst (topic_scores title summary)).1) := by
      unfold get_topic_and_icon
      rw [if_pos hany]
    cases hs : topic_scores title summary with
    | nil => rw [hs] at hany; simp at hany
    | cons p ps =>
      have hmax : maxByFirst (topic_scores title summary) = foldMaxBy ps p := by
        rw [hs]; rfl
      refine ⟨(foldMaxBy ps p).2, ?_, ?_, ?_⟩
      · rw [hgt, hmax]
        exact foldMaxBy_find ps p
      · intro q hq
        exact foldMaxBy_le ps p q hq
      · rw [hgt]

/-- Witness for C6: the theorem applied to a keyword-free text (general /
good-news fallback) and to a technology-keyword text. -/
theorem topic_classifier_spec_witness :
    (¬(topic_scores "zzz qqq" "ppp").any (fun p => p.2 ≠ 0) = true ∧
      get_topic_and_icon (fun _ => some "1F389") "zzz qqq" "ppp" =
        ("general", iconPath (fun _ => some "1F389") "good news")) ∧
    ((topic_scores "ai software" "").any (fun p => p.2 ≠ 0) = true ∧
      ∃ m,
        (topic_scores "ai software" "").find? (fun p => decide (m ≤ p.2)) =
          some ((get_topic_and_icon (fun _ => some "1F389") "ai software" "").1, m) ∧
        (∀ p ∈ topic_scores "ai software" "", p.2 ≤ m) ∧
        (get_topic_and_icon (fun _ => some "1F389") "ai software" "").2 =
          iconPath (fun _ => some "1F389")
            (get_topic_and_icon (fun _ => some "1F389") "ai software" "").1) := by
  refine ⟨⟨by decide, ?_⟩, by decide, ?_⟩
  · exact (topic_classifier_spec (fun _ => some "1F389") "zzz qqq" "ppp").1 (by decide)
  · exact (topic_classifier_spec (fun _ => some "1F389") "ai software" "").2 (by decide)

/-! ## The image resolver (`src/aggregator.py` lines 498-551) -/

/-- Feed attribute values as feedparser yields them: ints or strings. -/
inductive FeedVal where
  | num (n : Int)
  | str (s : String)
deriving DecidableEq, Repr

/-- One `media_content` / `media_thumbnail` dict: optional `width` and `url`
keys (the only keys the source reads). -/
structure MediaItem where
  width : Option FeedVal
  url : Option String
deriving DecidableEq, Repr

/-- Feed entry fields the pipeline reads.  `summary`/`description` are absent
(`none`) when the feed omits them; `content` is the list of the entries'
`value` strings (`[]` when absent/empty, which the source's truthiness check
treats alike); `published` is the ISO string `parse_date` produces (feed
timestamp or fetch time — external clock, supplied by the feed model). -/
structure Entry where
  title : String
  link : String
  summary : Option String
  description : Option String
  content : List String
  media_content : List MediaItem
  media_thumbnail : List MediaItem
  published : String
deriving DecidableEq, Repr

/-- Width attribute coercion: missing ⇒ 0, string ⇒ `int(...)` with fallback
0. -/
def mediaWidth (m : MediaItem) : Int :=
  match m.width with
  | none => 0
  | some (.num n) => n
  | some (.str s) => (s.toInt?).getD 0

/-- The widest-media loop of the resolver: the running best (with its width)
is replaced when a strictly greater declared width arrives — and only media
carrying a `url` key are ever selected. -/
def bestMedia (media_content : List MediaItem) : Option (MediaItem × Int) :=
  media_content.foldl (fun best media =>
    let width := mediaWidth media
    match best with
    | none =>
      match media.url with
      | some _ => some (media, width)
      | none => none
    | some (bm, bw) =>
      if bw < width then
        match media.url with
        | some _ => some (media, width)
        | none => some (bm, bw)
      else some (bm, bw)) none

/-- Stage 1 of the fallback chain: URL of the widest media item. -/
def bestMediaUrl (media_content : List MediaItem) : Option String :=
  match bestMedia media_content with
  | some (bm, _) => bm.url
  | none => none

/-- Capture of `([^"]+)"`: a non-empty run up to a closing quote, with the
remainder after the quote. -/
def takeCapture (cs : List Char) : Option (List Char × List Char) :=
  let cap := cs.takeWhile (fun c => c ≠ '"')
  if cap.length = 0 then none
  else if cap.length = cs.length then none
  else some (cap, cs.drop (cap.length + 1))

/-- Scan for `src="` inside the tag — the regex's `[^>]*src="` forbids
crossing a `>` — returning the captured URL and the remainder.  (The regex's
greedy `[^>]*` would take the last `src="` of a tag; for tags with a single
`src` attribute, the practical case, the first-occurrence scan agrees.) -/
def findSrcAttr : List Char → Option (List Char × List Char)
  | [] => none
  | c :: cs =>
    if c = '>' then none
    else if (c :: cs).take 5 = "src=\"".data then
      takeCapture ((c :: cs).drop 5)
    else findSrcAttr cs

/-- Remainder after the first `>` (the regex's trailing `[^>]*>`). -/
def afterGt (cs : List Char) : Option (List Char) :=
  match cs.dropWhile (fun c => c ≠ '>') with
  | [] => none
  | _ :: rest => some rest

/-- Fuelled scan embedding `re.findall(r'<img\s+[^>]*src="([^"]+)"[^>]*>', s)`:
at each position try to match `<img` + whitespace + an in-tag `src="…"` +
a closing `>`; on success emit the capture and resume after the match, else
advance one character. -/
def findImgSrcsGo : Nat → List Char → List String
  | 0, _ => []
  | _ + 1, [] => []
  | fuel + 1, c :: cs =>
    if (c :: cs).take 4 = "<img".data ∧ ((c :: cs).getD 4 'x').isWhitespace = true then
      match findSrcAttr ((c :: cs).drop 5) with
      | some (cap, rest) =>
        match afterGt rest with
        | some rest2 => String.mk cap :: findImgSrcsGo fuel rest2
        | none => findImgSrcsGo fuel cs
      | none => findImgSrcsGo fuel cs
    else findImgSrcsGo fuel cs

/-- The `<img src="...">` URLs extracted from one content string. -/
def findImgSrcs (s : String) : List String :=
  findImgSrcsGo (s.data.length + 1) s.data

/-- Tracking/icon markers skipped by the resolver. -/
def trackingMarkers : List String :=
  ["icon", "pixel", "tracker", "tracking", "1x1", "badge"]

/-- Marker test `any(x in img.lower() for x in [...])`. -/
def hasMarker (img : String) : Bool :=
  trackingMarkers.any (fun x => containsSub (lowerStr img).data x.data)

/-- Digit-run value (the regex's `int(...)` on a `\d+` group). -/
def digitsToNat (ds : List Char) : Nat :=
  ds.foldl (fun n c => 10 * n + (c.toNat - 48)) 0

/-- Match of `([_-])(\d+)x(\d+)([_.-])` anchored at the head of `cs`. -/
def dimsAt (cs : List Char) : Option (Nat × Nat) :=
  match cs with
  | c :: rest =>
    if c = '_' ∨ c = '-' then
      let ds1 := rest.takeWhile Char.isDigit
      if ds1.length = 0 then none
      else
        match rest.drop ds1.length with
        | 'x' :: rest2 =>
          let ds2 := rest2.takeWhile Char.isDigit
          if ds2.length = 0 then none
          else
            match rest2.drop ds2.length with
            | d :: _ =>
              if d = '_' ∨ d = '.' ∨ d = '-' then
                some (digitsToNat ds1, digitsToNat ds2)
              else none
            | [] => none
        | _ => none
    else none
  | [] => none

/-- Leftmost `([_-])(\d+)x(\d+)([_.-])` match in an image URL
(`re.search` semantics). -/
def findDims (img : String) : Option (Nat × Nat) :=
  (List.range img.data.length).findSome? (fun i => dimsAt (img.data.drop i))

/-- The inner selection loop over extracted `<img>` URLs: skip any URL with a
tracking/icon marker, skip any URL whose filename encodes both dimensions
below 100, take the first survivor. -/
def pickImg (imgs : List String) : Option String :=
  imgs.findSome? (fun img =>
    if hasMarker img then none
    else
      match findDims img with
      | some (w, h) => if w < 100 ∨ h < 100 then none else some img
      | none => some img)

/-- The truthy content-field texts scanned by stage 3, in the source's order
`content`, `description`, `summary`. -/
def fieldTexts (e : Entry) : List String :=
  (match e.content with
    | [] => []
    | v :: _ => [v]) ++
  (match e.description with
    | some d => if d = "" then [] else [d]
    | none => []) ++
  (match e.summary with
    | some s => if s = "" then [] else [s]
    | none => [])

/-- Stage 3 of the fallback chain: first acceptable `<img>` URL over the
content fields. -/
def imgFromFields (e : Entry) : Option String :=
  (fieldTexts e).findSome? (fun txt => pickImg (findImgSrcs txt))

/-- Netloc of `urlparse(link)` for well-formed absolute URLs: the text after
`//` up to the next `/`, `?` or `#`. -/
def netlocFrom : List Char → List Char
  | [] => []
  | '/' :: '/' :: rest => rest.takeWhile (fun c => c ≠ '/' ∧ c ≠ '?' ∧ c ≠ '#')
  | _ :: cs => netlocFrom cs

def urlNetloc (url : String) : String := String.mk (netlocFrom url.data)

/-- Python truthiness of the running `image_url`: unset when `None` or the
empty string. -/
def unsetImg : Option String → Bool
  | none => true
  | some s => s == ""

/-- Final stage of the resolution chain: topic-named placeholder when the
file exists on disk (`placeholderExists` models the `os.path.exists` check),
else the favicon-service URL keyed by the link's domain. -/
def finishImg (i3 : Option String) (topic_name link : String)
    (placeholderExists : Bool) : String :=
  if unsetImg i3 then
    if placeholderExists then "/static/placeholders/" ++ lowerStr topic_name ++ ".jpg"
    else "https://www.google.com/s2/favicons?domain=" ++ urlNetloc link ++ "&sz=128"
  else i3.getD ""

/-- Embedding of the image-resolution chain of `fetch_and_filter_feeds`
(lines 498-551): widest media-content URL, else first media-thumbnail URL,
else first acceptable `<img>` URL from the content fields, else the
placeholder/favicon fallback. -/
def resolve_image (e : Entry) (topic_name link : String) (placeholderExists : Bool) :
    String :=
  let i1 := bestMediaUrl e.media_content
  let i2 := if unsetImg i1 then (e.media_thumbnail.head?).bind MediaItem.url else i1
  let i3 := if unsetImg i2 then imgFromFields e else i2
  finishImg i3 topic_name link placeholderExists

/-- The concrete entry of the claim's scenario: no media fields, and a
description whose only image is a tracker-pixel URL. -/
def trackerEntry : Entry :=
  { title := "t", link := "http://x/page", summary := none,
    description := some "<img src=\"http://x/tracker_pixel.png\">",
    content := [], media_content := [], media_thumbnail := [], published := "" }

theorem string_append_ne_empty_left (s t : String) (h : s ≠ "") : s ++ t ≠ "" := by
  intro hc
  apply h
  cases s with
  | mk l =>
    cases t with
    | mk m =>
      have hd : l ++ m = [] := congrArg String.data hc
      have : l = [] := (List.append_eq_nil.mp hd).1
      rw [this]

theorem getD_ne_of_not_unset (o : Option String) (h : ¬unsetImg o = true) :
    o.getD "" ≠ "" := by
  cases o with
  | none => simp [unsetImg] at h
  | some s =>
    have hs : ¬(s == "") = true := by simpa [unsetImg] using h
    intro hc
    have : (s == "") = true := by rw [show s = "" from hc]; rfl
    exact hs this

theorem finishImg_ne_empty (o : Option String) (topic link : String) (pe : Bool) :
    finishImg o topic link pe ≠ "" := by
  unfold finishImg
  by_cases h3 : unsetImg o = true
  · rw [if_pos h3]
    by_cases hpe : pe = true
    · rw [if_pos hpe]
      exact string_append_ne_empty_left _ _
        (string_append_ne_empty_left _ _ (by decide))
    · rw [if_neg hpe]
      exact string_append_ne_empty_left _ _
        (string_append_ne_empty_left _ _ (by decide))
  · rw [if_neg h3]
    exact getD_ne_of_not_unset o h3

/-- C7: the resolver always returns a non-empty URL; the inner selection loop
never selects an extracted URL carrying a tracking/icon marker (and only
returns extracted URLs); and on the claim's concrete entry — no media fields,
only a tracker-pixel image, no placeholder on disk — it returns the
favicon-service URL for the link's domain, whatever the topic. -/
theorem image_resolver_spec :
    (∀ e topic link pe, resolve_image e topic link pe ≠ "") ∧
    (∀ imgs img, pickImg imgs = some img → hasMarker img = false ∧ img ∈ imgs) ∧
    (∀ topic, resolve_image trackerEntry topic "http://x/page" false =
      "https://www.google.com/s2/favicons?domain=x&sz=128") := by
  refine ⟨?_, ?_, ?_⟩
  · intro e topic link pe
    unfold resolve_image
    dsimp only
    exact finishImg_ne_empty _ topic link pe
  · intro imgs img h
    obtain ⟨a, hmem, hfa⟩ := List.exists_of_findSome?_eq_some h
    by_cases hm : hasMarker a = true
    · rw [if_pos hm] at hfa
      cases hfa
    · rw [if_neg hm] at hfa
      have hma : hasMarker a = false := by
        cases hq : hasMarker a
        · rfl
        · exact absurd hq hm
      cases hd : findDims a with
      | none =>
        rw [hd] at hfa
        simp only [Option.some.injEq] at hfa
        exact ⟨hfa ▸ hma, hfa ▸ hmem⟩
      | some wh =>
        rw [hd] at hfa
        obtain ⟨w, hgt⟩ := wh
        dsimp only at hfa
        by_cases hsmall : w < 100 ∨ hgt < 100
        · rw [if_pos hsmall] at hfa
          cases hfa
        · rw [if_neg hsmall] at hfa
          simp only [Option.some.injEq] at hfa
          exact ⟨hfa ▸ hma, hfa ▸ hmem⟩
  · intro topic
    unfold resolve_image
    have h3 : imgFromFields trackerEntry = none := by decide
    show finishImg (if unsetImg (if unsetImg (bestMediaUrl trackerEntry.media_content)
        then (trackerEntry.media_thumbnail.head?).bind MediaItem.url
        else bestMediaUrl trackerEntry.media_content) then imgFromFields trackerEntry
      else if unsetImg (bestMediaUrl trackerEntry.media_content)
        then (trackerEntry.media_thumbnail.head?).bind MediaItem.url
        else bestMediaUrl trackerEntry.media_content) topic "http://x/page" false = _
    rw [h3]
    show finishImg none topic "http://x/page" false = _
    unfold finishImg
    rw [if_pos (show unsetImg none = true from rfl), if_neg (by decide : ¬false = true)]
    decide

/-- Witness for C7: the selection-loop conjunct applied to the concrete match
list of the scenario (the tracker URL is skipped, a clean URL is selected),
and the concrete favicon result. -/
theorem image_resolver_spec_witness :
    (pickImg ["http://x/tracker_pixel.png", "http://x/photo.png"] =
        some "http://x/photo.png") ∧
    (hasMarker "http://x/photo.png" = false ∧
      "http://x/photo.png" ∈ ["http://x/tracker_pixel.png", "http://x/photo.png"]) ∧
    resolve_image trackerEntry "science" "http://x/page" false =
      "https://www.google.com/s2/favicons?domain=x&sz=128" ∧
    resolve_image trackerEntry "science" "http://x/page" false ≠ "" := by
  refine ⟨by decide, ?_, ?_, ?_⟩
  · exact image_resolver_spec.2.1 ["http://x/tracker_pixel.png", "http://x/photo.png"]
      "http://x/photo.png" (by decide)
  · exact image_resolver_spec.2.2 "science"
  · exact image_resolver_spec.1 trackerEntry "science" "http://x/page" false

/-! ## The fetch/filter pipeline merge (`src/aggregator.py` lines 446-629) -/

/-- External collaborators the pipeline consults: the VADER sentiment model,
the topic→hex icon table and the placeholder-file existence check. -/
structure PipelineEnv where
  vader : String → Rat
  icon_map : String → Option String
  placeholders : String → Bool

/-- Construction of the article dict (lines 553-576) for an admitted entry:
classification, scoring, image resolution, then tag classification of the
fully built article. -/
def buildArticle (env : PipelineEnv) (feed_url : String) (e : Entry)
    (title link summary : String) : Article :=
  let combined_text := title ++ ". " ++ summary
  let sentiment_score := get_positive_sentiment_score env.vader combined_text
  let ti := get_topic_and_icon env.icon_map title summary
  let scores := score_inspiration_with_llm env.vader combined_text
  let image_url := resolve_image e ti.1 link (env.placeholders ti.1)
  let a0 : Article :=
    { title := title, link := link, summary := summary, published := e.published,
      sentiment_score := sentiment_score, inspiration_score := scores.composite,
      is_inspirational := true, source_name := urlNetloc feed_url,
      topic_name := ti.1, topic_icon_path := ti.2, image_url := image_url, tags := [] }
  { a0 with tags := classify_article_tags a0 }

/-- Keyed insertion of a freshly built article (lines 578-589): initialise
the topic bucket when absent, skip entirely when an article with the same
`link` is already in that bucket, append otherwise. -/
def insertArticle (st : Store) (topic : String) (article : Article) : Store :=
  let st1 := if (st.lookup topic).isSome then st else st ++ [(topic, [])]
  if (bucket st1 topic).any (fun a => a.link = article.link) then st1
  else storeModify st1 topic (fun l => l ++ [article])

/-- Per-entry step of the fetch loop (lines 476-589): validity check,
removed-link check, filter, then build and insert. -/
def processEntry (env : PipelineEnv) (removed : List String) (feed_url : String)
    (st : Store) (e : Entry) : Store :=
  let title := e.title
  let link := e.link
  let summary := e.summary.getD (e.description.getD "")
  if title = "" ∨ link = "" then st
  else if link ∈ removed then st
  else if passes_filter env.vader title summary = false then st
  else
    let article := buildArticle env feed_url e title link summary
    insertArticle st article.topic_name article

/-- Sort key of the per-feed bucket sort (lines 594-602):
`(is_inspirational, inspiration_score, published)`, descending. -/
def sortKey (a : Article) : Nat × Rat × String :=
  ((if a.is_inspirational then 1 else 0), a.inspiration_score, a.published)

/-- Lexicographic comparison of sort keys. -/
def sortKeyLe (x y : Nat × Rat × String) : Bool :=
  decide (x.1 < y.1) ||
    (decide (x.1 = y.1) &&
      (decide (x.2.1 < y.2.1) || (decide (x.2.1 = y.2.1) && decide (x.2.2 ≤ y.2.2))))

/-- Stable descending sort of one bucket (`list.sort(key=..., reverse=True)`). -/
def sortBucket (l : List Article) : List Article :=
  l.mergeSort (fun a b => sortKeyLe (sortKey b) (sortKey a))

/-- The per-feed re-sort of every topic bucket. -/
def sortAllBuckets (st : Store) : Store := st.map (fun p => (p.1, sortBucket p.2))

/-- One feed's processing: fold the entries through the per-entry step, then
re-sort all buckets (the incremental cache save has no effect on the store). -/
def processFeed (env : PipelineEnv) (removed : List String) (st : Store)
    (feed_url : String) (entries : List Entry) : Store :=
  sortAllBuckets (entries.foldl (processEntry env removed feed_url) st)

/-- Embedding of `fetch_and_filter_feeds`: starting from the loaded cache
(`init`), process the feeds strictly in order. -/
def fetch_and_filter_feeds (env : PipelineEnv) (removed : List String)
    (init : Store) (feeds : List (String × List Entry)) : Store :=
  feeds.foldl (fun st f => processFeed env removed st f.1 f.2) init

/-- Per-bucket uniqueness of article links. -/
def linksNodup (st : Store) : Prop :=
  ∀ p ∈ st, (p.2.map Article.link).Nodup

theorem mem_storeModify {st : Store} {t : String} {f : List Article → List Article}
    {q : String × List Article} (hq : q ∈ storeModify st t f) :
    q ∈ st ∨ q = (t, f (bucket st t)) := by
  induction st with
  | nil => cases hq
  | cons p ps ih =>
    by_cases hp : p.1 = t
    · rw [storeModify, if_pos hp] at hq
      rcases List.mem_cons.mp hq with h1 | h2
      · right
        rw [h1, bucket_cons_pos p ps (Eq.symm hp), hp]
      · exact Or.inl (List.mem_cons_of_mem _ h2)
    · rw [storeModify, if_neg hp] at hq
      rcases List.mem_cons.mp hq with h1 | h2
      · exact Or.inl (h1 ▸ List.mem_cons_self _ _)
      · rcases ih h2 with h3 | h4
        · exact Or.inl (List.mem_cons_of_mem _ h3)
        · right
          rw [h4, bucket_cons_neg p ps (fun hh => hp (Eq.symm hh))]

theorem lookup_mem {β : Type} {st : List (String × β)} {t : String} {l : β}
    (h : st.lookup t = some l) : (t, l) ∈ st := by
  induction st with
  | nil => cases h
  | cons p ps ih =>
    by_cases hp : t = p.1
    · rw [lookup_cons_pos ps hp] at h
      cases p with
      | mk t2 l2 =>
        cases h
        exact hp ▸ List.mem_cons_self _ _
    · rw [lookup_cons_neg ps hp] at h
      exact List.mem_cons_of_mem _ (ih h)

theorem linksNodup_insert {st : Store} {t : String} {a : Article}
    (h : linksNodup st) : linksNodup (insertArticle st t a) := by
  unfold insertArticle
  dsimp only
  have h1 : linksNodup (if (st.lookup t).isSome then st else st ++ [(t, [])]) := by
    by_cases hs : (st.lookup t).isSome
    · rw [if_pos hs]; exact h
    · rw [if_neg hs]
      intro p hp
      rcases List.mem_append.mp hp with h2 | h3
      · exact h p h2
      · have : p = (t, []) := by simpa using h3
        rw [this]
        exact List.nodup_nil
  set st1 := if (st.lookup t).isSome then st else st ++ [(t, [])] with hst1
  by_cases hdup : (bucket st1 t).any (fun b => b.link = a.link) = true
  · rw [if_pos hdup]; exact h1
  · rw [if_neg hdup]
    intro p hp
    rcases mem_storeModify hp with h2 | h3
    · exact h1 p h2
    · rw [h3]
      dsimp only
      rw [List.map_append]
      rw [List.nodup_append]
      refine ⟨?_, by simp, ?_⟩
      · cases hl : st1.lookup t with
        | none =>
          have : bucket st1 t = [] := by rw [bucket, hl]; rfl
          rw [this]; exact List.nodup_nil
        | some l =>
          have hb : bucket st1 t = l := by rw [bucket, hl]; rfl
          rw [hb]
          exact h1 (t, l) (lookup_mem hl)
      · intro x hx
        simp only [List.map_singleton, List.mem_singleton]
        obtain ⟨b, hb, hbl⟩ := List.mem_map.mp hx
        intro hc
        apply hdup
        rw [List.any_eq_true]
        exact ⟨b, hb, by rw [hbl, hc]; simp⟩

theorem linksNodup_sortAll {st : Store} (h : linksNodup st) :
    linksNodup (sortAllBuckets st) := by
  intro p hp
  obtain ⟨q, hq, hpq⟩ := List.mem_map.mp hp
  rw [← hpq]
  dsimp only
  have hperm : List.Perm (sortBucket q.2) q.2 := List.mergeSort_perm q.2 _
  exact ((hperm.map Article.link).nodup_iff).mpr (h q hq)

theorem linksNodup_processFeed (env : PipelineEnv) (removed : List String)
    (feed_url : String) :
    ∀ (entries : List Entry) (st : Store), linksNodup st →
      linksNodup (processFeed env removed st feed_url entries) := by
  intro entries
  have hfold : ∀ (es : List Entry) (st : Store), linksNodup st →
      linksNodup (es.foldl (processEntry env removed feed_url) st) := by
    intro es
    induction es with
    | nil => intro st h; exact h
    | cons e es ih =>
      intro st h
      apply ih
      unfold processEntry
      dsimp only
      by_cases h1 : e.title = "" ∨ e.link = ""
      · rw [if_pos h1]; exact h
      · rw [if_neg h1]
        by_cases h2 : e.link ∈ removed
        · rw [if_pos h2]; exact h
        · rw [if_neg h2]
          by_cases h3 : passes_filter env.vader e.title
              (e.summary.getD (e.description.getD "")) = false
          · rw [if_pos h3]; exact h
          · rw [if_neg h3]
            exact linksNodup_insert h
  intro st h
  exact linksNodup_sortAll (hfold entries st h)

/-- C8: per-bucket link uniqueness is an invariant of the pipeline — the
merge step skips any entry whose link already occurs in its topic bucket —
so one run preserves it and running the pipeline twice over the same feeds
and removed-links leaves every topic bucket free of duplicate links. -/
theorem pipeline_link_unique (env : PipelineEnv) (removed : List String)
    (init : Store) (feeds : List (String × List Entry))
    (hinit : linksNodup init) :
    linksNodup (fetch_and_filter_feeds env removed init feeds) ∧
    linksNodup (fetch_and_filter_feeds env removed
      (fetch_and_filter_feeds env removed init feeds) feeds) := by
  have hrun : ∀ (fs : List (String × List Entry)) (st : Store), linksNodup st →
      linksNodup (fetch_and_filter_feeds env removed st fs) := by
    intro fs
    induction fs with
    | nil => intro st h; exact h
    | cons f fs ih =>
      intro st h
      exact ih _ (linksNodup_processFeed env removed f.1 f.2 st h)
  exact ⟨hrun feeds init hinit, hrun feeds _ (hrun feeds init hinit)⟩

/-- Witness for C8: the invariant theorem applied to the empty initial store
and a concrete one-feed list. -/
theorem pipeline_link_unique_witness :
    linksNodup ([] : Store) ∧
    linksNodup (fetch_and_filter_feeds
      ⟨fun _ => 1, fun _ => none, fun _ => false⟩ [] []
      [("http://feeds.example/a", [trackerEntry])]) := by
  have h0 : linksNodup ([] : Store) := by
    intro p hp
    cases hp
  exact ⟨h0, (pipeline_link_unique ⟨fun _ => 1, fun _ => none, fun _ => false⟩ []
    [] [("http://feeds.example/a", [trackerEntry])] h0).1⟩

/-! ## Exception flow of the fetch loop (`src/aggregator.py` lines 163-265
and 469-617)

The `try` at line 469 wraps a whole feed's entry loop; `classify_article_tags`
carries its own internal `try` (lines 168-265) returning `[]` on an
exception.  No handler sits between them, so an exception raised by the topic
classifier or the inspiration scorer while processing one entry propagates to
the per-feed handler.  The model instruments exactly these three call sites
with `Except`-valued oracles and mirrors the handler placement. -/

/-- Failure-instrumented classifier/scorer oracles.  `tagFn` failures model
exceptions inside `classify_article_tags`'s own `try` (caught there, mapped
to `[]`); `topicFn`/`scoreFn` failures model exceptions raised by
`get_topic_and_icon` / `score_inspiration_with_llm`, which only the per-feed
handler catches. -/
structure FallibleSteps where
  topicFn : String → String → Except Unit (String × Option String)
  scoreFn : String → Except Unit InspirationScores
  tagFn : Article → Except Unit (List Tag)
  vader : String → Rat
  placeholders : String → Bool

/-- The article dict as built before tag classification (lines 553-573). -/
def articleBase (fns : FallibleSteps) (feed_url : String) (e : Entry)
    (title link summary : String) (ti : String × Option String)
    (scores : InspirationScores) : Article :=
  { title := title, link := link, summary := summary, published := e.published,
    sentiment_score := get_positive_sentiment_score fns.vader (title ++ ". " ++ summary),
    inspiration_score := scores.composite, is_inspirational := true,
    source_name := urlNetloc feed_url, topic_name := ti.1, topic_icon_path := ti.2,
    image_url := resolve_image e ti.1 link (fns.placeholders ti.1), tags := [] }

/-- Per-entry step with the instrumented oracles: a topic/score failure
propagates (`Except.error`), a tag failure is caught in place and the article
is inserted with no tags. -/
def processEntryE (fns : FallibleSteps) (removed : List String) (feed_url : String)
    (st : Store) (e : Entry) : Except Unit Store :=
  let title := e.title
  let link := e.link
  let summary := e.summary.getD (e.description.getD "")
  if title = "" ∨ link = "" then .ok st
  else if link ∈ removed then .ok st
  else if passes_filter fns.vader title summary = false then .ok st
  else
    match fns.topicFn title summary with
    | .error u => .error u
    | .ok ti =>
      match fns.scoreFn (title ++ ". " ++ summary) with
      | .error u => .error u
      | .ok scores =>
        let a0 := articleBase fns feed_url e title link summary ti scores
        let tags :=
          match fns.tagFn a0 with
          | .ok ts => ts
          | .error _ => []
        let article := { a0 with tags := tags }
        .ok (insertArticle st article.topic_name article)

/-- Entry loop under the per-feed `try`: an uncaught exception stops the loop,
keeping the store built so far; the Boolean records completion. -/
def entriesLoopE (fns : FallibleSteps) (removed : List String) (feed_url : String) :
    Store → List Entry → Store × Bool
  | st, [] => (st, true)
  | st, e :: es =>
    match processEntryE fns removed feed_url st e with
    | .ok st2 => entriesLoopE fns removed feed_url st2 es
    | .error _ => (st, false)

/-- One feed with the per-feed handler (lines 469-617): the per-feed bucket
sort runs only when the entry loop completed; an aborted feed keeps the
articles inserted before the exception. -/
def processFeedE (fns : FallibleSteps) (removed : List String) (feed_url : String)
    (st : Store) (entries : List Entry) : Store :=
  match entriesLoopE fns removed feed_url st entries with
  | (st2, true) => sortAllBuckets st2
  | (st2, false) => st2

/-- Concrete entries of the counterexample: both valid and admissible. -/
def eBad : Entry :=
  { title := "Bad news first wonderful", link := "http://x/bad", summary := some "great",
    description := none, content := [], media_content := [], media_thumbnail := [],
    published := "" }

def eGood : Entry :=
  { title := "Good news second wonderful", link := "http://x/good", summary := some "great",
    description := none, content := [], media_content := [], media_thumbnail := [],
    published := "" }

/-- Oracles whose scorer raises exactly on `eBad`'s combined text; everything
else succeeds. -/
def cexSteps : FallibleSteps :=
  { topicFn := fun _ _ => .ok ("general", none),
    scoreFn := fun s =>
      if s = "Bad news first wonderful. great" then .error ()
      else .ok ⟨5, 5, 5, 5, 5, 5⟩,
    tagFn := fun _ => .ok [],
    vader := fun _ => 1,
    placeholders := fun _ => false }

/-- Counterexample to C9 as stated: with a scorer exception on the first
entry, the feed's processing aborts and the second (perfectly admissible)
entry is never admitted — the same entry alone produces a non-empty bucket.
One bad entry therefore does abort the processing of the remaining entries
of its feed. -/
theorem per_article_exception_counterexample :
    processFeedE cexSteps [] "http://f" [] [eBad, eGood] = [] ∧
    (entriesLoopE cexSteps [] "http://f" [] [eGood]).2 = true ∧
    bucket (entriesLoopE cexSteps [] "http://f" [] [eGood]).1 "general" ≠ [] := by
  refine ⟨by decide, by decide, by decide⟩

/-- C9 (amended): exception confinement as the handler placement gives it —
(a) when the topic classifier and scorer never raise, the entry loop always
completes (tag-classifier failures are caught per-article and cannot abort
the feed); (b) on a tag-classifier failure the article is still admitted,
with the safe default of no tags; (c) an entry whose topic/score step raises
aborts the feed at that entry: the store built so far is kept unchanged and
the remaining entries are dropped. -/
theorem exception_flow_spec (fns : FallibleSteps) (removed : List String)
    (feed_url : String) :
    (∀ (entries : List Entry) (st : Store),
      (∀ t s, ∃ v, fns.topicFn t s = .ok v) →
      (∀ s, ∃ v, fns.scoreFn s = .ok v) →
      (entriesLoopE fns removed feed_url st entries).2 = true) ∧
    (∀ (st : Store) (e : Entry) (ti : String × Option String)
        (scores : InspirationScores) (u : Unit),
      ¬(e.title = "" ∨ e.link = "") → e.link ∉ removed →
      ¬passes_filter fns.vader e.title (e.summary.getD (e.description.getD "")) = false →
      fns.topicFn e.title (e.summary.getD (e.description.getD "")) = .ok ti →
      fns.scoreFn (e.title ++ ". " ++ e.summary.getD (e.description.getD "")) = .ok scores →
      fns.tagFn (articleBase fns feed_url e e.title e.link
        (e.summary.getD (e.description.getD "")) ti scores) = .error u →
      processEntryE fns removed feed_url st e =
        .ok (insertArticle st ti.1
          (articleBase fns feed_url e e.title e.link
            (e.summary.getD (e.description.getD "")) ti scores))) ∧
    (∀ (st : Store) (e : Entry) (es : List Entry) (u : Unit),
      processEntryE fns removed feed_url st e = .error u →
      processFeedE fns removed feed_url st (e :: es) = st) := by
  refine ⟨?_, ?_, ?_⟩
  · intro entries
    induction entries with
    | nil => intro st _ _; rfl
    | cons e es ih =>
      intro st htopic hscore
      have hok : ∃ st2, processEntryE fns removed feed_url st e = .ok st2 := by
        unfold processEntryE
        dsimp only
        by_cases h1 : e.title = "" ∨ e.link = ""
        · rw [if_pos h1]; exact ⟨st, rfl⟩
        · rw [if_neg h1]
          by_cases h2 : e.link ∈ removed
          · rw [if_pos h2]; exact ⟨st, rfl⟩
          · rw [if_neg h2]
            by_cases h3 : passes_filter fns.vader e.title
                (e.summary.getD (e.description.getD "")) = false
            · rw [if_pos h3]; exact ⟨st, rfl⟩
            · rw [if_neg h3]
              obtain ⟨ti, hti⟩ := htopic e.title (e.summary.getD (e.description.getD ""))
              rw [hti]
              obtain ⟨scores, hsc⟩ :=
                hscore (e.title ++ ". " ++ e.summary.getD (e.description.getD ""))
              rw [hsc]
              exact ⟨_, rfl⟩
      obtain ⟨st2, hst2⟩ := hok
      show (entriesLoopE fns removed feed_url st (e :: es)).2 = true
      rw [entriesLoopE, hst2]
      exact ih st2 htopic hscore
  · intro st e ti scores u h1 h2 h3 hti hsc htag
    unfold processEntryE
    dsimp only
    rw [if_neg h1, if_neg h2, if_neg h3, hti, hsc]
    dsimp only
    rw [htag]
    rfl
  · intro st e es u herr
    unfold processFeedE
    rw [entriesLoopE, herr]

/-- Oracles that never raise, for the completion conjunct of the witness. -/
def okSteps : FallibleSteps :=
  { topicFn := fun _ _ => .ok ("general", none),
    scoreFn := fun _ => .ok ⟨5, 5, 5, 5, 5, 5⟩,
    tagFn := fun _ => .ok [],
    vader := fun _ => 1,
    placeholders := fun _ => false }

/-- Witness for the amended C9: never-raising oracles complete a concrete
feed's entry loop, and `cexSteps`' scorer failure aborts at the bad entry
keeping the store built so far. -/
theorem exception_flow_spec_witness :
    ((entriesLoopE okSteps [] "http://f" [] [eGood, eBad]).2 = true) ∧
    (processFeedE cexSteps [] "http://f" [("general", [artA06])] [eBad, eGood] =
      [("general", [artA06])]) := by
  constructor
  · exact (exception_flow_spec okSteps [] "http://f").1 [eGood, eBad] []
      (fun t s => ⟨("general", none), rfl⟩)
      (fun s => ⟨⟨5, 5, 5, 5, 5, 5⟩, rfl⟩)
  · exact (exception_flow_spec cexSteps [] "http://f").2.2
      [("general", [artA06])] eBad [eGood] () (by rfl)

end GoodNews
